import Mathlib

/-!
# as.matrix for data.table: a shallow embedding of `src/matrix.c`

The C function `asmatrix(dt, rownames)` turns a list of equally long columns
into one column-major matrix.  It works in three phases: a scan over the
columns that picks the destination type (`maxType`) with a deferred rule for
`integer64` columns, the allocation of the destination with its dimnames and
a provisional `integer64` class, and a loop that pre-coerces each column where
`memrecycle` cannot and then calls `memrecycle` on the column slice.

The definitions below follow the C text line by line.  The R API calls that
compute on values outside this file (`coerceVector`, `memrecycle`) are
arguments of the model; everything the C code decides itself is a definition.
-/

namespace AsMatrix

/-! ## R object model -/

/-- The SEXPTYPE codes of `Rinternals.h`. -/
inductive SEXPTYPE where
  | NILSXP | SYMSXP | LISTSXP | CLOSXP | ENVSXP | PROMSXP | LANGSXP
  | SPECIALSXP | BUILTINSXP | CHARSXP | LGLSXP | INTSXP | REALSXP | CPLXSXP
  | STRSXP | DOTSXP | ANYSXP | VECSXP | EXPRSXP | BCODESXP | EXTPTRSXP
  | WEAKREFSXP | RAWSXP | S4SXP
  deriving DecidableEq, Repr

open SEXPTYPE

/-- Modelled from the spec: the `typeorder` table behind the `TYPEORDER` macro
lives in `data.table.h` / `init.c`, which are not part of the sources at hand.
The spec gives the order `raw/boolean < integer < floating-point < complex <
string < generic/list` and says that every type that is neither atomic nor a
list ranks above `generic/list` (it is forced to `generic/list` by the scan). -/
def TYPEORDER : SEXPTYPE → Nat
  | RAWSXP => 0
  | LGLSXP => 0
  | INTSXP => 1
  | REALSXP => 2
  | CPLXSXP => 3
  | STRSXP => 4
  | VECSXP => 5
  | _ => 6

/-- One cell of a character vector: `NA_STRING` or the result of `mkChar`. -/
inductive CHARSXP where
  | NA_STRING
  | mkChar (s : String)
  deriving DecidableEq, Repr

/-- An R object as far as `asmatrix` looks into it: its type, its class
attribute (`[]` when absent) and its payload.
* `num`: a vector whose cells are machine numbers; a cell is kept as the
  integer that `(int64_t *) REAL(x)` reads from it;
* `chr`: a vector of CHARSXP cells;
* `gen`: a vector of R objects (`VECSXP`, `EXPRSXP`, pairlists);
* `obj`: anything else (functions, environments, symbols, ...), with the
  value that `length` reports for it. -/
inductive SEXP where
  | R_NilValue : SEXP
  | num (type : SEXPTYPE) (klass : List String) (data : List Int) : SEXP
  | chr (type : SEXPTYPE) (klass : List String) (data : List CHARSXP) : SEXP
  | gen (type : SEXPTYPE) (klass : List String) (data : List SEXP) : SEXP
  | obj (type : SEXPTYPE) (klass : List String) (len : Nat) : SEXP

/-- The type code of an object, `TYPEOF(x)`. -/
def TYPEOF : SEXP → SEXPTYPE
  | .R_NilValue => NILSXP
  | .num t _ _ => t
  | .chr t _ _ => t
  | .gen t _ _ => t
  | .obj t _ _ => t

/-- The class attribute, `getAttrib(x, R_ClassSymbol)`, as a list of names. -/
def classOf : SEXP → List String
  | .R_NilValue => []
  | .num _ k _ => k
  | .chr _ k _ => k
  | .gen _ k _ => k
  | .obj _ k _ => k

/-- The length of an object, `length(x)`. -/
def length : SEXP → Nat
  | .R_NilValue => 0
  | .num _ _ d => d.length
  | .chr _ _ d => d.length
  | .gen _ _ d => d.length
  | .obj _ _ n => n

/-- The class name `char_integer64`. -/
def char_integer64 : String := "integer64"

/-- Modelled from the spec: the macro `INHERITS(x, char)` of `data.table.h` is
not part of the sources at hand.  The spec speaks of a column that carries the
wide-integer tag; here the tag is the presence of `char` in the class
attribute of `x`. -/
def INHERITS (x : SEXP) (char : String) : Bool :=
  decide (char ∈ classOf x)

/-- The test `isVectorAtomic(x)` of the R API. -/
def isVectorAtomic (x : SEXP) : Bool :=
  match TYPEOF x with
  | LGLSXP | INTSXP | REALSXP | CPLXSXP | STRSXP | RAWSXP => true
  | _ => false

/-- The test `isVector(x)` of the R API: atomic vectors, lists and expression
vectors. -/
def isVector (x : SEXP) : Bool :=
  match TYPEOF x with
  | LGLSXP | INTSXP | REALSXP | CPLXSXP | STRSXP | RAWSXP => true
  | VECSXP | EXPRSXP => true
  | _ => false

/-- The element `VECTOR_ELT(x, i)`; reading outside a generic vector is undefined in C and
gives `R_NilValue` here. -/
def VECTOR_ELT (x : SEXP) (i : Nat) : SEXP :=
  match x with
  | .gen _ _ d => d.getD i .R_NilValue
  | _ => .R_NilValue

/-- The table `dt`: a generic vector of columns with a names attribute. -/
structure DataTable where
  cols : List SEXP
  names : SEXP

/-- The number of columns, `length(dt)`. -/
def DataTable.ncol (dt : DataTable) : Nat := dt.cols.length

/-- The number of rows, `length(VECTOR_ELT(dt, 0))`: the length of the first
column.  The caller
passes a table with at least one column; for a table without columns the C
code reads outside the list, and the model gives 0. -/
def DataTable.nrow (dt : DataTable) : Nat := length (dt.cols.getD 0 .R_NilValue)

/-! ## Phase 1: the destination type (matrix.c lines 15-46) -/

/-- The two variables of the scan, `maxType` and `integer64`. -/
structure Scan where
  maxType : SEXPTYPE
  integer64 : Bool
  deriving DecidableEq, Repr

/-- One iteration of the loop at lines 18-35. -/
def scanStep (s : Scan) (thisCol : SEXP) : Scan :=
  let thisType := TYPEOF thisCol
  if s.maxType = VECSXP then s
  else if INHERITS thisCol char_integer64 then { s with integer64 := true }
  else if TYPEORDER thisType > TYPEORDER VECSXP then { s with maxType := VECSXP }
  else if TYPEORDER thisType > TYPEORDER s.maxType then { s with maxType := thisType }
  else s

/-- The loop at lines 18-35, started at `maxType=RAWSXP`, `integer64=false`. -/
def scan (cols : List SEXP) : Scan :=
  cols.foldl scanStep { maxType := RAWSXP, integer64 := false }

/-- The adjustment at lines 38-46. -/
def fixup (s : Scan) : SEXPTYPE :=
  if s.integer64 then
    if TYPEORDER s.maxType < TYPEORDER REALSXP then REALSXP
    else if TYPEORDER s.maxType < TYPEORDER STRSXP then STRSXP
    else s.maxType
  else s.maxType

/-- The value of `maxType` after line 46: the destination type. -/
def destinationType (cols : List SEXP) : SEXPTYPE :=
  fixup (scan cols)

/-! ## Phase 2: the destination (matrix.c lines 48-69) -/

/-- The destination `ans`: a column-major buffer of `nrow * ncol` cells of one
type, with its `dimnames` and `class` attributes.  The cells themselves are
written by `memrecycle` only and are not part of the model. -/
structure Matrix where
  type : SEXPTYPE
  nrow : Nat
  ncol : Nat
  dimnames : SEXP
  klass : List String

/-- Number of cells of the buffer. -/
def Matrix.length (m : Matrix) : Nat := m.nrow * m.ncol

/-- The call `allocMatrix(mode, nrow, ncol)`: a fresh matrix without attributes other
than its dimensions. -/
def allocMatrix (mode : SEXPTYPE) (nrow ncol : Nat) : Matrix :=
  { type := mode, nrow := nrow, ncol := ncol, dimnames := .R_NilValue, klass := [] }

/-- The arguments of one call
`memrecycle(target, where, start, len, source, sourceStart, sourceLen, colnum, colname)`. -/
structure FillCall where
  target : Matrix
  whr : SEXP
  start : Nat
  len : Nat
  source : SEXP
  sourceStart : Nat
  sourceLen : Int
  colnum : Nat
  colname : String

/-- What `matrix.c` uses without defining it: `coerceVector` of the R API,
`memrecycle` of data.table (which answers with a message when precision is
lost, and with nothing otherwise) and the constant `NA_INTEGER64` of
`data.table.h`. -/
structure Env where
  coerceVector : SEXP → SEXPTYPE → SEXP
  memrecycle : FillCall → Option String
  NA_INTEGER64 : Int

/-- A call of `error(...)`: the internal error of line 98, with the type of
the column that could not be coerced. -/
inductive Error where
  | cannotCoerceToList (type : SEXPTYPE)
  deriving DecidableEq, Repr

/-- What the call has done so far.
* `nprotect`: the value of the C counter of that name;
* `protects`: the number of `PROTECT` calls performed;
* `coercions`: the columns (0-based) for which a new object was built before
  the fill, with that object;
* `fills`: the calls of `memrecycle`, oldest first;
* `warnings`: the calls of `warning`, oldest first, as (column number
  printed, message). -/
structure Trace where
  nprotect : Nat
  protects : Nat
  coercions : List (Nat × SEXP)
  fills : List FillCall
  warnings : List (Nat × String)

/-- The state after line 63: the destination with its dimnames and, when
`integer64 && maxType == REALSXP`, the class `integer64`; the saved class
`matClass`; and the bookkeeping of the three or four `PROTECT` calls. -/
structure Allocated where
  ans : Matrix
  matClass : List String
  trace : Trace

/-- Lines 48-63. -/
def allocate (maxType : SEXPTYPE) (integer64 : Bool) (nrow ncol : Nat)
    (dt : DataTable) (rownames : SEXP) : Allocated :=
  -- SEXP ans = PROTECT(allocMatrix(maxType, nrow, ncol)); nprotect++;
  let ans := allocMatrix maxType nrow ncol
  -- SEXP dimnames = PROTECT(allocVector(VECSXP, 2)); nprotect++;
  let dimnames := SEXP.gen VECSXP [] [rownames, dt.names]
  let ans := { ans with dimnames := dimnames }
  -- SEXP matClass = PROTECT(getAttrib(ans, R_ClassSymbol));
  let matClass := ans.klass
  if integer64 && decide (maxType = REALSXP) then
    -- SEXP i64Class = PROTECT(allocVector(STRSXP, 1)); nprotect++;
    { ans := { ans with klass := [char_integer64] }
      matClass := matClass
      trace := { nprotect := 3, protects := 4, coercions := [], fills := [], warnings := [] } }
  else
    { ans := ans
      matClass := matClass
      trace := { nprotect := 2, protects := 3, coercions := [], fills := [], warnings := [] } }

/-! ## Phase 3: coercion and fill (matrix.c lines 71-127) -/

/-- The size of the text buffer, `INTEGER64_ASCHAR_LEN`. -/
def INTEGER64_ASCHAR_LEN : Nat := 22

/-- The text that the conversion `%lli` (`INTEGER64_ASCHAR_FMT`) produces for
a value: a minus sign for a negative value, then the decimal digits. -/
def formatLli (v : Int) : List Char :=
  if v < 0 then '-' :: Nat.toDigits 10 v.natAbs else Nat.toDigits 10 v.natAbs

/-- What `snprintf(buff, size, ...)` leaves in `buff`: at most `size - 1`
characters of the formatted text (the last byte holds the terminator). -/
def snprintf (size : Nat) (text : List Char) : List Char :=
  text.take (size - 1)

/-- The view `(int64_t *) REAL(thisCol)`; reading past the end of the column
is undefined in C and gives 0 here. -/
def int64At (x : SEXP) (i : Nat) : Int :=
  match x with
  | .num _ _ d => d.getD i 0
  | _ => 0

/-- The body of the loop at lines 106-113 for one cell. -/
def int64AsChar (NA_INTEGER64 : Int) (v : Int) : CHARSXP :=
  if v = NA_INTEGER64 then .NA_STRING
  else .mkChar (String.mk (snprintf INTEGER64_ASCHAR_LEN (formatLli v)))

/-- Lines 76-119 for one column: the object handed to `memrecycle` and the
bookkeeping, or the internal error of line 98. -/
def coerceColumn (env : Env) (maxType : SEXPTYPE) (integer64 : Bool) (nrow : Nat)
    (j : Nat) (thisCol : SEXP) (tr : Trace) : Except Error (SEXP × Trace) :=
  if maxType = VECSXP ∧ TYPEOF thisCol ≠ VECSXP then
    if isVectorAtomic thisCol || decide (TYPEOF thisCol = LISTSXP) then
      -- coerced = PROTECT(coerceVector(thisCol, maxType)); nprotect++;
      let coerced := env.coerceVector thisCol maxType
      .ok (coerced, { tr with nprotect := tr.nprotect + 1, protects := tr.protects + 1,
                              coercions := tr.coercions ++ [(j, coerced)] })
    else if TYPEOF thisCol = EXPRSXP then
      -- one PROTECT for the list and one for each wrapped element, all counted
      let coerced := SEXP.gen VECSXP []
        ((List.range nrow).map fun i => env.coerceVector (VECTOR_ELT thisCol i) EXPRSXP)
      .ok (coerced, { tr with nprotect := tr.nprotect + 1 + nrow,
                              protects := tr.protects + 1 + nrow,
                              coercions := tr.coercions ++ [(j, coerced)] })
    else if !isVector thisCol then
      let coerced := SEXP.gen VECSXP [] ((List.range nrow).map fun _ => thisCol)
      .ok (coerced, { tr with nprotect := tr.nprotect + 1, protects := tr.protects + 1,
                              coercions := tr.coercions ++ [(j, coerced)] })
    else
      .error (.cannotCoerceToList (TYPEOF thisCol))
  else if integer64 && decide (maxType = STRSXP) && INHERITS thisCol char_integer64 then
    let coerced := SEXP.chr STRSXP []
      ((List.range nrow).map fun i => int64AsChar env.NA_INTEGER64 (int64At thisCol i))
    .ok (coerced, { tr with nprotect := tr.nprotect + 1, protects := tr.protects + 1,
                            coercions := tr.coercions ++ [(j, coerced)] })
  else if maxType = STRSXP ∧ TYPEOF thisCol = CPLXSXP then
    -- coerced = PROTECT(coerceVector(thisCol, STRSXP));   (nprotect is not incremented)
    let coerced := env.coerceVector thisCol STRSXP
    .ok (coerced, { tr with protects := tr.protects + 1,
                            coercions := tr.coercions ++ [(j, coerced)] })
  else
    -- coerced = thisCol;
    .ok (thisCol, tr)

/-- Lines 121-126 for one column: the call of `memrecycle` at `ansloc` and the
warning when it answers with a message. -/
def fillColumn (env : Env) (ans : Matrix) (nrow : Nat) (ansloc : Nat)
    (j : Nat) (coerced : SEXP) (tr : Trace) : Trace :=
  let call : FillCall :=
    { target := ans, whr := .R_NilValue, start := ansloc, len := nrow, source := coerced,
      sourceStart := 0, sourceLen := -1, colnum := 0, colname := "V1" }
  let tr := { tr with fills := tr.fills ++ [call] }
  match env.memrecycle call with
  | some ret => { tr with warnings := tr.warnings ++ [(j + 1, ret)] }
  | none => tr

/-- The loop at lines 74-127 from column `j` on, `cols` being the columns not
yet visited.  `ansloc` is a C `int`; `allocMatrix` has already refused any
`nrow * ncol` above `INT_MAX`, so the additions never wrap. -/
def fillLoop (env : Env) (ans : Matrix) (maxType : SEXPTYPE) (integer64 : Bool)
    (nrow : Nat) : Nat → Nat → List SEXP → Trace → Except Error Trace
  | _, _, [], tr => .ok tr
  | j, ansloc, thisCol :: rest, tr =>
    match coerceColumn env maxType integer64 nrow j thisCol tr with
    | .error e => .error e
    | .ok (coerced, tr) =>
      fillLoop env ans maxType integer64 nrow (j + 1) (ansloc + nrow) rest
        (fillColumn env ans nrow ansloc j coerced tr)

/-- What a call of `asmatrix` that returns has produced: the returned matrix,
the argument of the final `UNPROTECT`, and the trace. -/
structure Result where
  ans : Matrix
  unprotected : Nat
  trace : Trace

/-- The state at line 63, where the destination is allocated and labelled and
nothing has been filled yet (lines 12-63). -/
def allocated (dt : DataTable) (rownames : SEXP) : Allocated :=
  -- int ncol = length(dt);
  let ncol := dt.ncol
  -- int nrow = length(VECTOR_ELT(dt, 0));
  let nrow := dt.nrow
  let s := scan dt.cols
  let integer64 := s.integer64
  let maxType := fixup s
  allocate maxType integer64 nrow ncol dt rownames

/-- The function `asmatrix(dt, rownames)`. -/
def asmatrix (env : Env) (dt : DataTable) (rownames : SEXP) : Except Error Result :=
  let nrow := dt.nrow
  let integer64 := (scan dt.cols).integer64
  let maxType := fixup (scan dt.cols)
  let a := allocated dt rownames
  -- if (nrow == 0) { UNPROTECT(nprotect); return(ans); }
  if nrow = 0 then
    .ok { ans := a.ans, unprotected := a.trace.nprotect, trace := a.trace }
  else
    match fillLoop env a.ans maxType integer64 nrow 0 0 dt.cols a.trace with
    | .error e => .error e
    | .ok tr =>
      -- if (integer64 && maxType == REALSXP) setAttrib(ans, R_ClassSymbol, matClass);
      let ans :=
        if integer64 && decide (maxType = REALSXP) then { a.ans with klass := a.matClass }
        else a.ans
      -- UNPROTECT(nprotect); return(ans);
      .ok { ans := ans, unprotected := tr.nprotect, trace := tr }

/-! ## Vocabulary of the properties -/

/-- A column is wide-integer when it carries the class `integer64`; this is
the test the scan makes first, before it looks at the type. -/
def isWideInteger (c : SEXP) : Bool := INHERITS c char_integer64

/-- A column requires promotion to generic/list when it is not wide-integer
and is either a list itself or not an atomic vector. -/
def requiresList (c : SEXP) : Bool :=
  !isWideInteger c && (decide (TYPEOF c = VECSXP) || !isVectorAtomic c)

/-- The rank at which a column is counted when it is compared with the
destination type: a wide-integer column at the rank of `REALSXP`, a column
that is neither atomic nor a list at the rank of `VECSXP`, any other column at
the rank of its own type. -/
def countedRank (c : SEXP) : Nat :=
  if isWideInteger c then TYPEORDER REALSXP
  else if !isVectorAtomic c && decide (TYPEOF c ≠ VECSXP) then TYPEORDER VECSXP
  else TYPEORDER (TYPEOF c)

/-- The types that `maxType` can hold during the scan. -/
def isCanon : SEXPTYPE → Bool
  | RAWSXP | INTSXP | REALSXP | CPLXSXP | STRSXP | VECSXP => true
  | _ => false

/-- The rank with which a column takes part in the scan: none for a
wide-integer column, the rank of its type capped at that of `VECSXP`
otherwise. -/
def plainRank (c : SEXP) : Nat :=
  if INHERITS c char_integer64 then 0 else min (TYPEORDER (TYPEOF c)) (TYPEORDER VECSXP)

/-- The greatest `plainRank` among the columns. -/
def maxPlainRank (cols : List SEXP) : Nat :=
  (cols.map plainRank).foldr max 0

/-! ### Sample columns -/

/-- A logical column `(TRUE, FALSE)`. -/
def boolCol : SEXP := .num LGLSXP [] [1, 0]

/-- An integer column `(1, 2)`. -/
def int32Col : SEXP := .num INTSXP [] [1, 2]

/-- A double column `(1.0, 0.0)`, cells given by their bit patterns. -/
def realCol : SEXP := .num REALSXP [] [4607182418800017408, 0]

/-- A complex column. -/
def cplxCol : SEXP := .num CPLXSXP [] [0, 0]

/-- An `integer64` column `(10, NA)`, with `NA` the smallest 64-bit value. -/
def int64Col : SEXP := .num REALSXP ["integer64"] [10, -9223372036854775808]

/-- A character column `("a", "b")`. -/
def strCol : SEXP := .chr STRSXP [] [.mkChar "a", .mkChar "b"]

/-- A list column `(1, "a")`. -/
def listCol : SEXP :=
  .gen VECSXP [] [.num REALSXP [] [4607182418800017408], .chr STRSXP [] [.mkChar "a"]]

/-- An expression column of two elements. -/
def exprCol : SEXP := .gen EXPRSXP [] [.obj SYMSXP [] 1, .obj LANGSXP [] 3]

/-- A list column `(1, "a")` that carries the class `integer64`. -/
def taggedListCol : SEXP :=
  .gen VECSXP ["integer64"] [.num REALSXP [] [4607182418800017408], .chr STRSXP [] [.mkChar "a"]]

/-- An expression column of two elements that carries the class `integer64`. -/
def taggedExprCol : SEXP :=
  .gen EXPRSXP ["integer64"] [.obj SYMSXP [] 1, .obj LANGSXP [] 3]

/-! ## Decimal text -/

/-- The canonical decimal text of a natural number: its base-10 digits, most
significant first, without leading zeros; `0` for zero. -/
def canonicalNat (n : Nat) : List Char :=
  if n = 0 then ['0'] else (Nat.digits 10 n).reverse.map Nat.digitChar

/-- The canonical signed decimal text of an integer. -/
def canonicalDecimal (v : Int) : List Char :=
  if v < 0 then '-' :: canonicalNat v.natAbs else canonicalNat v.natAbs

/-- The value of a decimal digit character. -/
def digitValue (c : Char) : Option Nat :=
  if '0' ≤ c ∧ c ≤ '9' then some (c.toNat - '0'.toNat) else none

/-- Reads decimal digits, most significant first, onto an accumulator. -/
def parseDigits : List Char → Nat → Option Nat
  | [], acc => some acc
  | c :: cs, acc =>
    match digitValue c with
    | some d => parseDigits cs (acc * 10 + d)
    | none => none

/-- Reads a non-empty run of decimal digits. -/
def parseNat (cs : List Char) : Option Nat :=
  match cs with
  | [] => none
  | _ => parseDigits cs 0

/-- Reads a signed decimal text as a 64-bit signed integer. -/
def parseInt64 (cs : List Char) : Option Int :=
  match cs with
  | '-' :: ds => (parseNat ds).bind fun n => if n ≤ 2 ^ 63 then some (-(n : Int)) else none
  | ds => (parseNat ds).bind fun n => if n < 2 ^ 63 then some (n : Int) else none


/-! ## The fill calls -/

/-- The trace before anything has happened. -/
def emptyTrace : Trace :=
  { nprotect := 0, protects := 0, coercions := [], fills := [], warnings := [] }

/-- The object that lines 76-119 hand to `memrecycle` for a column. -/
def sourceFor (env : Env) (maxType : SEXPTYPE) (integer64 : Bool) (nrow : Nat)
    (thisCol : SEXP) : SEXP :=
  match coerceColumn env maxType integer64 nrow 0 thisCol
      emptyTrace with
  | .ok (coerced, _) => coerced
  | .error _ => thisCol

/-- The calls of `memrecycle` that fill consecutive column slices of `ans`
from position `ansloc` on, one per source. -/
def fillCalls (ans : Matrix) (nrow : Nat) : Nat → List SEXP → List FillCall
  | _, [] => []
  | ansloc, source :: rest =>
    { target := ans, whr := .R_NilValue, start := ansloc, len := nrow, source := source,
      sourceStart := 0, sourceLen := -1, colnum := 0, colname := "V1" }
      :: fillCalls ans nrow (ansloc + nrow) rest


/-! ### Sample environment and tables -/

/-- An environment for worked examples: `memrecycle` never reports, the
missing value of `integer64` is the smallest 64-bit integer, and `coerceVector`
hands its argument back. -/
def sampleEnv : Env :=
  { coerceVector := fun x _ => x
    memrecycle := fun _ => none
    NA_INTEGER64 := -9223372036854775808 }

/-- A table of an `integer64` column and a logical column, two rows. -/
def wideBoolTable : DataTable := { cols := [int64Col, boolCol], names := .R_NilValue }

/-- A table of one `integer64` column without rows. -/
def emptyWideTable : DataTable :=
  { cols := [.num REALSXP ["integer64"] []], names := .R_NilValue }

/-! ## Warnings -/

/-- The calls of `warning` that the loop makes for the calls of `memrecycle`
of columns `j`, `j + 1`, ...: one for each call that `memrecycle` answers with
a message, carrying the column number counted from 1 and that message. -/
def warningsFor (env : Env) : Nat → List FillCall → List (Nat × String)
  | _, [] => []
  | j, call :: rest =>
    (match env.memrecycle call with
      | some ret => [(j + 1, ret)]
      | none => []) ++ warningsFor env (j + 1) rest

/-- An environment in which `memrecycle` reports a loss of precision for the
slice that starts at position 2 and for no other. -/
def lossyEnv : Env :=
  { coerceVector := fun x _ => x
    memrecycle := fun call => if call.start = 2 then some "precision lost" else none
    NA_INTEGER64 := -9223372036854775808 }

/-- A table of one integer column, two rows. -/
def intTable : DataTable := { cols := [int32Col], names := .R_NilValue }

/-- A table of a complex column and a character column, two rows. -/
def cplxStrTable : DataTable := { cols := [cplxCol, strCol], names := .R_NilValue }

/-! ## Coercion to list, as the spec describes it -/

/-- Modelled from the spec: `coerceVector(x, VECSXP)` of the R API is not part
of the sources at hand.  The spec says that an atomic vector or a pairlist is
coerced directly to generic/list, each element becoming a cell of its own (a
scalar is wrapped as its own boxed element); the cells of a pairlist are its
elements. -/
def coerceToList : SEXP → SEXP
  | .R_NilValue => .gen VECSXP [] []
  | .num t _ d => .gen VECSXP [] (d.map fun v => .num t [] [v])
  | .chr t _ d => .gen VECSXP [] (d.map fun c => .chr t [] [c])
  | .gen _ _ d => .gen VECSXP [] d
  | .obj t k n => .gen VECSXP [] ((List.range n).map fun _ => .obj t k 1)

/-- Modelled from the spec: `coerceVector(e, EXPRSXP)` of the R API is not part
of the sources at hand.  The spec says that an element of an expression column
is re-wrapped as a one-element collection of that same type. -/
def coerceToExpression (e : SEXP) : SEXP := .gen EXPRSXP [] [e]

/-- An environment whose `coerceVector` coerces to list and to expression as
the spec describes, and in which `memrecycle` never reports. -/
def boxingEnv : Env :=
  { coerceVector := fun x type =>
      match type with
      | VECSXP => coerceToList x
      | EXPRSXP => coerceToExpression x
      | _ => x
    memrecycle := fun _ => none
    NA_INTEGER64 := -9223372036854775808 }

/-- A table of a list column and an integer column, two rows. -/
def listIntTable : DataTable := { cols := [listCol, int32Col], names := .R_NilValue }

/-! ## The rank of the destination type -/

/-- The rank of the destination type as a function of the greatest
`plainRank` among the columns and of the presence of a wide-integer column:
the adjustment of lines 38-46 read on ranks. -/
def destRank (rank : Nat) (wide : Bool) : Nat :=
  if wide then
    if rank < TYPEORDER REALSXP then TYPEORDER REALSXP
    else if rank < TYPEORDER STRSXP then TYPEORDER STRSXP
    else rank
  else rank

/-- A table of an `integer64` column and a character column, two rows. -/
def wideStrTable : DataTable := { cols := [int64Col, strCol], names := .R_NilValue }


/-! ## The scan: helper lemmas -/

theorem scanStep_rank (s : Scan) (c : SEXP) (hs : isCanon s.maxType = true) :
    TYPEORDER (scanStep s c).maxType = max (TYPEORDER s.maxType) (plainRank c)
      ∧ isCanon (scanStep s c).maxType = true := by
  obtain ⟨m, f⟩ := s
  unfold scanStep plainRank
  generalize TYPEOF c = t
  generalize INHERITS c char_integer64 = b
  cases m <;> cases t <;> cases b <;> simp_all [TYPEORDER, isCanon]

theorem scanStep_of_vec (s : Scan) (c : SEXP) (h : s.maxType = VECSXP) : scanStep s c = s := by
  simp [scanStep, h]

theorem foldl_scanStep_of_vec (cols : List SEXP) (s : Scan) (h : s.maxType = VECSXP) :
    cols.foldl scanStep s = s := by
  induction cols with
  | nil => rfl
  | cons c rest ih => simp [List.foldl_cons, scanStep_of_vec s c h, ih]

theorem foldl_scanStep_rank (cols : List SEXP) :
    ∀ s : Scan, isCanon s.maxType = true →
      TYPEORDER (cols.foldl scanStep s).maxType = max (TYPEORDER s.maxType) (maxPlainRank cols)
        ∧ isCanon (cols.foldl scanStep s).maxType = true := by
  induction cols with
  | nil => intro s hs; simp [maxPlainRank, hs]
  | cons c rest ih =>
    intro s hs
    obtain ⟨h1, h2⟩ := scanStep_rank s c hs
    obtain ⟨h3, h4⟩ := ih (scanStep s c) h2
    refine ⟨?_, h4⟩
    simp only [List.foldl_cons, h3, h1, maxPlainRank, List.map_cons, List.foldr_cons]
    omega

theorem scanStep_flag (s : Scan) (c : SEXP) (h : (scanStep s c).maxType ≠ VECSXP) :
    s.maxType ≠ VECSXP ∧
      (scanStep s c).integer64 = (s.integer64 || INHERITS c char_integer64) := by
  obtain ⟨m, f⟩ := s
  unfold scanStep at h ⊢
  by_cases hm : m = VECSXP
  · simp [hm] at h
  · refine ⟨hm, ?_⟩
    simp only [hm, if_false]
    split
    · simp [*]
    · split <;> [skip; split] <;> simp_all

theorem foldl_scanStep_flag (cols : List SEXP) :
    ∀ s : Scan, (cols.foldl scanStep s).maxType ≠ VECSXP →
      (cols.foldl scanStep s).integer64
        = (s.integer64 || cols.any fun c => INHERITS c char_integer64) := by
  induction cols with
  | nil => intro s _; simp
  | cons c rest ih =>
    intro s h
    simp only [List.foldl_cons] at h ⊢
    have h1 := ih (scanStep s c) h
    have hne : (scanStep s c).maxType ≠ VECSXP := by
      intro hv
      rw [foldl_scanStep_of_vec rest _ hv] at h
      exact h hv
    obtain ⟨_, h2⟩ := scanStep_flag s c hne
    rw [h1, h2]
    simp [Bool.or_assoc]

theorem scan_rank (cols : List SEXP) :
    TYPEORDER (scan cols).maxType = maxPlainRank cols ∧ isCanon (scan cols).maxType = true := by
  have h := foldl_scanStep_rank cols { maxType := RAWSXP, integer64 := false } rfl
  simpa [scan, TYPEORDER] using h

theorem scan_flag (cols : List SEXP) (h : (scan cols).maxType ≠ VECSXP) :
    (scan cols).integer64 = cols.any fun c => INHERITS c char_integer64 := by
  have := foldl_scanStep_flag cols { maxType := RAWSXP, integer64 := false } h
  simpa [scan] using this

theorem canon_eq_of_rank (a b : SEXPTYPE) (ha : isCanon a = true) (hb : isCanon b = true)
    (h : TYPEORDER a = TYPEORDER b) : a = b := by
  cases a <;> cases b <;> simp_all [isCanon, TYPEORDER]

theorem plainRank_le_maxPlainRank (cols : List SEXP) (c : SEXP) (h : c ∈ cols) :
    plainRank c ≤ maxPlainRank cols := by
  induction cols with
  | nil => cases h
  | cons d rest ih =>
    simp only [maxPlainRank, List.map_cons, List.foldr_cons]
    rcases List.mem_cons.mp h with rfl | h'
    · exact le_max_left _ _
    · exact le_trans (ih h') (le_max_right _ _)

theorem maxPlainRank_perm {l₁ l₂ : List SEXP} (h : l₁.Perm l₂) :
    maxPlainRank l₁ = maxPlainRank l₂ := by
  induction h with
  | nil => rfl
  | cons x _ ih =>
    simp only [maxPlainRank, List.map_cons, List.foldr_cons] at ih ⊢
    rw [ih]
  | swap x y l =>
    simp only [maxPlainRank, List.map_cons, List.foldr_cons]
    omega
  | trans _ _ ih₁ ih₂ => exact ih₁.trans ih₂

theorem any_inherits_perm {l₁ l₂ : List SEXP} (h : l₁.Perm l₂) :
    (l₁.any fun c => INHERITS c char_integer64) = (l₂.any fun c => INHERITS c char_integer64) := by
  induction h with
  | nil => rfl
  | cons x _ ih => simp only [List.any_cons, ih]
  | swap x y l => simp only [List.any_cons, Bool.or_left_comm]
  | trans _ _ ih₁ ih₂ => exact ih₁.trans ih₂

theorem fixup_rank_le (s : Scan) : TYPEORDER s.maxType ≤ TYPEORDER (fixup s) := by
  unfold fixup
  split
  · split
    · omega
    · split <;> omega
  · exact le_refl _

theorem countedRank_of_plain (c : SEXP) (h : isWideInteger c = false) :
    countedRank c = plainRank c := by
  unfold isWideInteger at h
  unfold countedRank plainRank isWideInteger isVectorAtomic
  rw [h]
  generalize TYPEOF c = t
  cases t <;> simp [TYPEORDER]

theorem requiresList_iff (c : SEXP) :
    requiresList c = true ↔ isWideInteger c = false ∧ plainRank c = TYPEORDER VECSXP := by
  unfold requiresList plainRank isWideInteger isVectorAtomic
  generalize TYPEOF c = t
  generalize INHERITS c char_integer64 = b
  cases b <;> cases t <;> simp [TYPEORDER]

theorem maxPlainRank_le (cols : List SEXP) : maxPlainRank cols ≤ TYPEORDER VECSXP := by
  induction cols with
  | nil => simp [maxPlainRank]
  | cons d rest ih =>
    simp only [maxPlainRank, List.map_cons, List.foldr_cons] at ih ⊢
    have : plainRank d ≤ TYPEORDER VECSXP := by
      unfold plainRank; split
      · simp
      · exact min_le_right _ _
    omega

theorem scan_vec_iff (cols : List SEXP) :
    (scan cols).maxType = VECSXP ↔ maxPlainRank cols = TYPEORDER VECSXP := by
  obtain ⟨hr, hc⟩ := scan_rank cols
  constructor
  · intro h; rw [← hr, h]
  · intro h
    exact canon_eq_of_rank _ _ hc rfl (by rw [hr, h])

theorem fixup_of_vec (s : Scan) (h : s.maxType = VECSXP) : fixup s = VECSXP := by
  obtain ⟨m, f⟩ := s
  simp only at h
  subst h
  cases f <;> simp [fixup, TYPEORDER]

/-- C1: the destination type ranks at least as high as every column of the
table, a wide-integer column being counted at the rank of `REALSXP` and a
column that is neither atomic nor a list at the rank of `VECSXP`. -/
theorem destinationType_dominates (cols : List SEXP) (c : SEXP) (h : c ∈ cols) :
    countedRank c ≤ TYPEORDER (destinationType cols) := by
  obtain ⟨hr, hc⟩ := scan_rank cols
  have hle := plainRank_le_maxPlainRank cols c h
  have hfix := fixup_rank_le (scan cols)
  unfold destinationType
  cases hi : isWideInteger c with
  | false =>
    rw [countedRank_of_plain c hi]
    omega
  | true =>
    have hcr : countedRank c = TYPEORDER REALSXP := by simp [countedRank, hi]
    rw [hcr]
    by_cases hv : (scan cols).maxType = VECSXP
    · rw [fixup_of_vec _ hv]; decide
    · have hflag : (scan cols).integer64 = true := by
        rw [scan_flag cols hv, List.any_eq_true]
        exact ⟨c, h, hi⟩
      revert hflag hc
      generalize scan cols = s
      obtain ⟨m, f⟩ := s
      intro hc hflag
      simp only at hflag
      subst hflag
      cases m <;> simp_all [fixup, TYPEORDER, isCanon]

theorem destinationType_dominates_witness :
    int64Col ∈ [boolCol, int64Col] ∧
      countedRank int64Col ≤ TYPEORDER (destinationType [boolCol, int64Col]) :=
  ⟨by simp, destinationType_dominates [boolCol, int64Col] int64Col (by simp)⟩

/-- C2: the scan followed by the wide-integer adjustment gives the same
destination type for a sequence of columns and for any permutation of it. -/
theorem destinationType_perm (l₁ l₂ : List SEXP) (h : l₁.Perm l₂) :
    destinationType l₁ = destinationType l₂ := by
  obtain ⟨hr₁, hc₁⟩ := scan_rank l₁
  obtain ⟨hr₂, hc₂⟩ := scan_rank l₂
  have hm : (scan l₁).maxType = (scan l₂).maxType :=
    canon_eq_of_rank _ _ hc₁ hc₂ (by rw [hr₁, hr₂, maxPlainRank_perm h])
  unfold destinationType
  by_cases hv : (scan l₁).maxType = VECSXP
  · rw [fixup_of_vec _ hv, fixup_of_vec _ (hm ▸ hv)]
  · have hf₁ := scan_flag l₁ hv
    have hf₂ := scan_flag l₂ (hm ▸ hv)
    have hf : (scan l₁).integer64 = (scan l₂).integer64 := by
      rw [hf₁, hf₂, any_inherits_perm h]
    unfold fixup
    rw [hm, hf]

/-- C3 (counterexample): a list column that carries the class `integer64` is
itself generic/list, yet the table made of it has destination type `REALSXP`;
an expression column that carries the class is neither atomic nor a list, yet
with a double column beside it the destination type is `STRSXP`.  The scan
tests the class first (line 27) and never looks at the type of such a
column. -/
theorem destinationType_tagged_list_is_real :
    TYPEOF taggedListCol = VECSXP ∧ destinationType [taggedListCol] = REALSXP ∧
      TYPEOF taggedExprCol = EXPRSXP ∧ isVectorAtomic taggedExprCol = false ∧
      destinationType [taggedExprCol, realCol] = STRSXP := by
  decide

/-- C3 (amended): when some column that does not carry the wide-integer tag is
a list or is not an atomic vector, the destination type is `VECSXP`, wherever
the column sits and whatever the other columns are, wide-integer ones
included. -/
theorem destinationType_absorbs (cols : List SEXP) (c : SEXP) (hc : c ∈ cols)
    (hw : isWideInteger c = false)
    (hl : TYPEOF c = VECSXP ∨ isVectorAtomic c = false) :
    destinationType cols = VECSXP := by
  have h : requiresList c = true := by
    rcases hl with hl | hl <;> simp [requiresList, hw, hl]
  obtain ⟨_, hp⟩ := (requiresList_iff c).mp h
  have h1 := plainRank_le_maxPlainRank cols c hc
  have h2 := maxPlainRank_le cols
  exact fixup_of_vec _ ((scan_vec_iff cols).mpr (by omega))

theorem maxPlainRank_le_of_forall (cols : List SEXP) (k : Nat)
    (h : ∀ c ∈ cols, plainRank c ≤ k) : maxPlainRank cols ≤ k := by
  induction cols with
  | nil => simp [maxPlainRank]
  | cons d rest ih =>
    simp only [maxPlainRank, List.map_cons, List.foldr_cons]
    have h1 := h d (List.mem_cons_self _ _)
    have h2 := ih (fun c hc => h c (List.mem_cons_of_mem _ hc))
    unfold maxPlainRank at h2
    omega

theorem plainRank_of_atomic (c : SEXP) (hw : isWideInteger c = false)
    (hl : requiresList c = false) :
    isVectorAtomic c = true ∧ plainRank c = TYPEORDER (TYPEOF c)
      ∧ TYPEORDER (TYPEOF c) ≤ TYPEORDER STRSXP := by
  unfold isWideInteger at hw
  unfold requiresList isWideInteger at hl
  unfold plainRank isVectorAtomic at *
  rw [hw] at hl ⊢
  revert hl
  generalize TYPEOF c = t
  cases t <;> simp [TYPEORDER]

theorem plainRank_of_wide (c : SEXP) (hw : isWideInteger c = true) : plainRank c = 0 := by
  unfold isWideInteger at hw
  simp [plainRank, hw]

theorem scan_not_vec_of_no_list (cols : List SEXP) (hl : ∀ c ∈ cols, requiresList c = false) :
    (scan cols).maxType ≠ VECSXP ∧ maxPlainRank cols ≤ TYPEORDER STRSXP := by
  have hb : maxPlainRank cols ≤ TYPEORDER STRSXP := by
    apply maxPlainRank_le_of_forall
    intro c hc
    cases hw : isWideInteger c with
    | true => rw [plainRank_of_wide c hw]; exact Nat.zero_le _
    | false =>
      obtain ⟨_, h2, h3⟩ := plainRank_of_atomic c hw (hl c hc)
      rw [h2]; exact h3
  refine ⟨?_, hb⟩
  intro hv
  have := (scan_vec_iff cols).mp hv
  simp [TYPEORDER] at this hb
  omega

theorem fixup_flagged (s : Scan) (hc : isCanon s.maxType = true) (hf : s.integer64 = true) :
    (TYPEORDER s.maxType < TYPEORDER REALSXP → fixup s = REALSXP) ∧
    (TYPEORDER REALSXP ≤ TYPEORDER s.maxType → TYPEORDER s.maxType ≤ TYPEORDER STRSXP →
      fixup s = STRSXP) := by
  obtain ⟨m, f⟩ := s
  simp only at hf hc
  subst hf
  cases m <;> simp_all [fixup, TYPEORDER, isCanon]

/-- C4: for a table with a wide-integer column and no column requiring
generic/list: when every other column ranks below `REALSXP` the destination
type is `REALSXP`; when a highest-ranked other column is `REALSXP` or `CPLXSXP`
it is `STRSXP`; when it is `STRSXP` it stays `STRSXP`. -/
theorem destinationType_wide (cols : List SEXP)
    (hw : ∃ c ∈ cols, isWideInteger c = true)
    (hl : ∀ c ∈ cols, requiresList c = false) :
    ((∀ c ∈ cols, isWideInteger c = false → TYPEORDER (TYPEOF c) < TYPEORDER REALSXP) →
        destinationType cols = REALSXP) ∧
    (∀ m ∈ cols, isWideInteger m = false →
        (∀ c ∈ cols, isWideInteger c = false → TYPEORDER (TYPEOF c) ≤ TYPEORDER (TYPEOF m)) →
        (TYPEOF m = REALSXP ∨ TYPEOF m = CPLXSXP → destinationType cols = STRSXP) ∧
        (TYPEOF m = STRSXP → destinationType cols = STRSXP)) := by
  obtain ⟨hr, hc⟩ := scan_rank cols
  obtain ⟨hv, hb⟩ := scan_not_vec_of_no_list cols hl
  have hflag : (scan cols).integer64 = true := by
    rw [scan_flag cols hv, List.any_eq_true]
    obtain ⟨c, hc, hi⟩ := hw
    exact ⟨c, hc, hi⟩
  obtain ⟨hlow, hhigh⟩ := fixup_flagged (scan cols) hc hflag
  have key : ∀ m ∈ cols, isWideInteger m = false →
      TYPEORDER REALSXP ≤ TYPEORDER (TYPEOF m) → destinationType cols = STRSXP := by
    intro m hm hmw hge
    obtain ⟨_, h2, _⟩ := plainRank_of_atomic m hmw (hl m hm)
    have := plainRank_le_maxPlainRank cols m hm
    exact hhigh (by omega) (by omega)
  refine ⟨?_, ?_⟩
  · intro hall
    apply hlow
    rw [hr]
    have : maxPlainRank cols ≤ 1 := by
      apply maxPlainRank_le_of_forall
      intro c hc
      cases hcw : isWideInteger c with
      | true => rw [plainRank_of_wide c hcw]; exact Nat.zero_le _
      | false =>
        obtain ⟨_, h2, _⟩ := plainRank_of_atomic c hcw (hl c hc)
        have := hall c hc hcw
        have e2 : TYPEORDER REALSXP = 2 := rfl
        omega
    have e2 : TYPEORDER REALSXP = 2 := rfl
    omega
  · intro m hm hmw _
    refine ⟨?_, ?_⟩
    · rintro (h | h) <;> exact key m hm hmw (by simp [h, TYPEORDER])
    · intro h; exact key m hm hmw (by simp [h, TYPEORDER])

theorem destinationType_wide_witness :
    destinationType [int64Col, boolCol] = REALSXP ∧
      destinationType [int64Col, realCol] = STRSXP :=
  ⟨(destinationType_wide [int64Col, boolCol] ⟨int64Col, by simp, by decide⟩
      (by decide)).1 (by decide),
   ((destinationType_wide [int64Col, realCol] ⟨int64Col, by simp, by decide⟩
      (by decide)).2 realCol (by simp) (by decide) (by decide)).1 (Or.inl rfl)⟩

theorem destinationType_perm_witness :
    [int64Col, realCol].Perm [realCol, int64Col] ∧
      destinationType [int64Col, realCol] = destinationType [realCol, int64Col] :=
  ⟨List.Perm.swap _ _ _, destinationType_perm _ _ (List.Perm.swap _ _ _)⟩

theorem destinationType_absorbs_witness :
    exprCol ∈ [int64Col, exprCol, strCol] ∧ isWideInteger exprCol = false ∧
      isVectorAtomic exprCol = false ∧
      destinationType [int64Col, exprCol, strCol] = VECSXP :=
  ⟨by simp, by decide, by decide,
    destinationType_absorbs _ exprCol (by simp) (by decide) (Or.inr (by decide))⟩



/-- C6 (the code at the failing input): for a table of one `integer64` column
without rows the call returns at line 68 with the class `integer64` still on
the matrix, although the classification saved in `matClass` before the marker
was attached is the absent one. -/
theorem zero_rows_return_keeps_integer64_class (env : Env) (rownames : SEXP) :
    ∃ r, asmatrix env emptyWideTable rownames = .ok r ∧
      r.ans.type = REALSXP ∧
      r.ans.klass = [char_integer64] ∧
      (allocated emptyWideTable rownames).matClass = [] ∧
      r.ans.klass ≠ (allocated emptyWideTable rownames).matClass :=
  ⟨_, rfl, rfl, rfl, rfl, (List.cons_ne_nil _ _ : [char_integer64] ≠ [])⟩

theorem destinationType_real_flag (cols : List SEXP) (h : destinationType cols = REALSXP) :
    (scan cols).integer64 = cols.any fun c => INHERITS c char_integer64 := by
  apply scan_flag
  intro hv
  rw [destinationType, fixup_of_vec _ hv] at h
  cases h

theorem allocate_ans (maxType : SEXPTYPE) (integer64 : Bool) (nrow ncol : Nat)
    (dt : DataTable) (rownames : SEXP) :
    (allocate maxType integer64 nrow ncol dt rownames).ans =
      { type := maxType, nrow := nrow, ncol := ncol,
        dimnames := .gen VECSXP [] [rownames, dt.names],
        klass := if integer64 && decide (maxType = REALSXP) then [char_integer64] else [] } := by
  unfold allocate allocMatrix
  split <;> simp_all

theorem allocate_matClass (maxType : SEXPTYPE) (integer64 : Bool) (nrow ncol : Nat)
    (dt : DataTable) (rownames : SEXP) :
    (allocate maxType integer64 nrow ncol dt rownames).matClass = [] := by
  unfold allocate allocMatrix
  split <;> rfl

theorem allocate_trace (maxType : SEXPTYPE) (integer64 : Bool) (nrow ncol : Nat)
    (dt : DataTable) (rownames : SEXP) :
    (allocate maxType integer64 nrow ncol dt rownames).trace.coercions = [] ∧
    (allocate maxType integer64 nrow ncol dt rownames).trace.fills = [] ∧
    (allocate maxType integer64 nrow ncol dt rownames).trace.warnings = [] := by
  unfold allocate
  split <;> simp

/-- C7: in the state in which the fill loop starts (destination allocated and
labelled, nothing filled), the matrix carries the class `integer64` exactly
when the destination type is `REALSXP` and some column is wide-integer. -/
theorem marker_iff (dt : DataTable) (rownames : SEXP) :
    char_integer64 ∈ (allocated dt rownames).ans.klass ↔
      (destinationType dt.cols = REALSXP ∧ ∃ c ∈ dt.cols, isWideInteger c = true) := by
  have hany : (dt.cols.any fun c => INHERITS c char_integer64) = true ↔
      ∃ c ∈ dt.cols, isWideInteger c = true := by
    simp [List.any_eq_true, isWideInteger]
  unfold allocated
  simp only [allocate_ans]
  by_cases ht : fixup (scan dt.cols) = REALSXP
  · have hf := destinationType_real_flag dt.cols ht
    rw [← hany, ← hf]
    cases hi : (scan dt.cols).integer64 <;> simp [ht, destinationType]
  · simp [ht, destinationType]

/-- C8: for a table without rows and with at least one column the call
returns a matrix of the destination type with 0 rows, `ncol` columns and no
cells, labelled with `rownames` and the names of the table, and it has built
no pre-coerced column and has not called `memrecycle`. -/
theorem asmatrix_zero_rows (env : Env) (dt : DataTable) (rownames : SEXP)
    (_hcol : 1 ≤ dt.ncol) (hrow : dt.nrow = 0) :
    ∃ r, asmatrix env dt rownames = .ok r ∧
      r.ans.type = destinationType dt.cols ∧
      r.ans.nrow = 0 ∧ r.ans.ncol = dt.ncol ∧ r.ans.length = 0 ∧
      r.ans.dimnames = .gen VECSXP [] [rownames, dt.names] ∧
      r.trace.coercions = [] ∧ r.trace.fills = [] := by
  refine ⟨_, by simp [asmatrix, hrow]; rfl, ?_⟩
  obtain ⟨h1, h2, _⟩ := allocate_trace (fixup (scan dt.cols)) (scan dt.cols).integer64
    0 dt.ncol dt rownames
  simp only [allocated, allocate_ans, Matrix.length, destinationType, hrow, h1, h2]
  simp

theorem asmatrix_zero_rows_witness :
    1 ≤ (DataTable.mk [.num REALSXP ["integer64"] [], .num LGLSXP [] []] .R_NilValue).ncol ∧
    (DataTable.mk [.num REALSXP ["integer64"] [], .num LGLSXP [] []] .R_NilValue).nrow = 0 ∧
    ∃ r, asmatrix ⟨fun x _ => x, fun _ => none, -9223372036854775808⟩
        (DataTable.mk [.num REALSXP ["integer64"] [], .num LGLSXP [] []] .R_NilValue)
        .R_NilValue = .ok r ∧
      r.ans.type = REALSXP ∧ r.ans.ncol = 2 ∧ r.trace.fills = [] := by
  refine ⟨by decide, by decide, ?_⟩
  obtain ⟨r, h, ht, _, hc, _, _, _, hf⟩ := asmatrix_zero_rows
    ⟨fun x _ => x, fun _ => none, -9223372036854775808⟩
    (DataTable.mk [.num REALSXP ["integer64"] [], .num LGLSXP [] []] .R_NilValue)
    .R_NilValue (by decide) (by decide)
  exact ⟨r, h, ht, hc, hf⟩


/-! ## Decimal text: lemmas -/

theorem digitValue_digitChar (d : Nat) (h : d < 10) : digitValue (Nat.digitChar d) = some d := by
  interval_cases d <;> decide

theorem digitChar_ne_minus (d : Nat) (h : d < 10) : Nat.digitChar d ≠ '-' := by
  interval_cases d <;> decide

theorem toDigitsCore_eq (fuel : Nat) : ∀ (n : Nat) (ds : List Char), n < fuel →
    Nat.toDigitsCore 10 fuel n ds = canonicalNat n ++ ds := by
  induction fuel with
  | zero => intro n ds h; omega
  | succ fuel ih =>
    intro n ds h
    simp only [Nat.toDigitsCore]
    by_cases h0 : n / 10 = 0
    · have hlt : n < 10 := by omega
      simp only [h0, if_true]
      have hmod : n % 10 = n := Nat.mod_eq_of_lt hlt
      rw [hmod]
      unfold canonicalNat
      by_cases hn : n = 0
      · subst hn; rfl
      · have : Nat.digits 10 n = [n] := Nat.digits_of_lt 10 n hn hlt
        simp [hn, this]
    · simp only [h0, if_false]
      rw [ih (n / 10) _ (by omega)]
      have hn : n ≠ 0 := by omega
      have hd : Nat.digits 10 n = (n % 10) :: Nat.digits 10 (n / 10) :=
        Nat.digits_def' (by norm_num) (Nat.pos_of_ne_zero hn)
      simp [canonicalNat, hn, h0, hd]

theorem toDigits_eq_canonicalNat (n : Nat) : Nat.toDigits 10 n = canonicalNat n := by
  unfold Nat.toDigits
  rw [toDigitsCore_eq (n + 1) n [] (by omega)]
  simp

theorem formatLli_eq_canonicalDecimal (v : Int) : formatLli v = canonicalDecimal v := by
  simp [formatLli, canonicalDecimal, toDigits_eq_canonicalNat]

theorem parseDigits_map_digitChar (ms : List Nat) (h : ∀ d ∈ ms, d < 10) :
    ∀ acc, parseDigits (ms.map Nat.digitChar) acc = some (ms.foldl (fun a d => a * 10 + d) acc) := by
  induction ms with
  | nil => intro acc; rfl
  | cons d rest ih =>
    intro acc
    simp only [List.map_cons, parseDigits, digitValue_digitChar d (h d (List.mem_cons_self _ _)),
      List.foldl_cons]
    exact ih (fun x hx => h x (List.mem_cons_of_mem _ hx)) _

theorem foldl_reverse_digits (ds : List Nat) :
    ds.reverse.foldl (fun a d => a * 10 + d) 0 = Nat.ofDigits 10 ds := by
  induction ds with
  | nil => rfl
  | cons d rest ih =>
    simp only [List.reverse_cons, List.foldl_append, List.foldl_cons, List.foldl_nil, ih,
      Nat.ofDigits_cons]
    omega

theorem canonicalNat_ne_nil (n : Nat) : canonicalNat n ≠ [] := by
  unfold canonicalNat
  split
  · simp
  · rename_i hn
    simp [Nat.digits_ne_nil_iff_ne_zero, hn]

theorem parseDigits_canonicalNat (n : Nat) : parseDigits (canonicalNat n) 0 = some n := by
  unfold canonicalNat
  split
  · rename_i hn; subst hn; decide
  · rw [parseDigits_map_digitChar _ (by
      intro d hd
      exact Nat.digits_lt_base (by norm_num) (List.mem_reverse.mp hd))]
    rw [foldl_reverse_digits, Nat.ofDigits_digits]

theorem parseNat_canonicalNat (n : Nat) : parseNat (canonicalNat n) = some n := by
  have h := canonicalNat_ne_nil n
  have h2 := parseDigits_canonicalNat n
  unfold parseNat
  split
  · rename_i he; exact absurd he h
  · exact h2

theorem canonicalNat_head_ne_minus (n : Nat) : ∀ ds, canonicalNat n ≠ '-' :: ds := by
  intro ds h
  have hp := parseDigits_canonicalNat n
  rw [h] at hp
  simp [parseDigits, digitValue] at hp

theorem parseInt64_canonicalDecimal (v : Int) (hlo : -(2 : Int) ^ 63 ≤ v) (hhi : v < 2 ^ 63) :
    parseInt64 (canonicalDecimal v) = some v := by
  unfold canonicalDecimal
  by_cases hneg : v < 0
  · simp only [hneg, if_true, parseInt64, parseNat_canonicalNat, Option.bind]
    have hb : v.natAbs ≤ 2 ^ 63 := by omega
    have hv : -((v.natAbs : Nat) : Int) = v := by omega
    simp only [if_pos hb, hv]
  · simp only [hneg, if_false]
    have hp := parseNat_canonicalNat v.natAbs
    have hm := canonicalNat_head_ne_minus v.natAbs
    unfold parseInt64
    split
    · rename_i ds he; exact absurd he (hm ds)
    · rw [hp]
      have hb : v.natAbs < 2 ^ 63 := by omega
      have hv : ((v.natAbs : Nat) : Int) = v := by omega
      simp only [Option.bind, if_pos hb, hv]

theorem canonicalNat_length (n : Nat) (h : n < 10 ^ 19) : (canonicalNat n).length ≤ 19 := by
  unfold canonicalNat
  split
  · simp
  · rename_i hn
    rw [List.length_map, List.length_reverse]
    have h1 := Nat.base_pow_length_digits_le 10 n (by norm_num) hn
    have h2 : 10 ^ (Nat.digits 10 n).length < 10 ^ 20 := by omega
    have h3 := (Nat.pow_lt_pow_iff_right (by norm_num : 1 < 10)).mp h2
    omega

theorem canonicalDecimal_length (v : Int) (hlo : -(2 : Int) ^ 63 ≤ v) (hhi : v < 2 ^ 63) :
    (canonicalDecimal v).length ≤ 20 := by
  have hn : v.natAbs < 10 ^ 19 := by omega
  have := canonicalNat_length v.natAbs hn
  unfold canonicalDecimal
  split
  · simp only [List.length_cons]; omega
  · omega

theorem snprintf_formatLli (v : Int) (hlo : -(2 : Int) ^ 63 ≤ v) (hhi : v < 2 ^ 63) :
    snprintf INTEGER64_ASCHAR_LEN (formatLli v) = canonicalDecimal v := by
  rw [formatLli_eq_canonicalDecimal]
  unfold snprintf INTEGER64_ASCHAR_LEN
  apply List.take_of_length_le
  have := canonicalDecimal_length v hlo hhi
  omega

theorem int64AsChar_eq (na v : Int) (hlo : -(2 : Int) ^ 63 ≤ v) (hhi : v < 2 ^ 63) :
    int64AsChar na v =
      if v = na then .NA_STRING else .mkChar (String.mk (canonicalDecimal v)) := by
  unfold int64AsChar
  rw [snprintf_formatLli v hlo hhi]

theorem range_map_int64At (t : SEXPTYPE) (k : List String) (data : List Int) (f : Int → CHARSXP) :
    (List.range data.length).map (fun i => f (int64At (.num t k data) i)) = data.map f := by
  apply List.ext_getElem
  · simp
  · intro i h1 h2
    simp only [List.length_map, List.length_range] at h1
    simp [int64At, List.getD_eq_getElem?_getD, List.getElem?_eq_getElem h1]

/-- C9: when the destination type is `STRSXP`, a wide-integer column is turned
into a character vector cell by cell: the missing value gives `NA_STRING`,
any other 64-bit value gives its canonical signed decimal text (the 22-byte
buffer never cuts it), and reading that text back gives the value. -/
theorem integer64_as_character (env : Env) (j : Nat) (tr : Trace) (t : SEXPTYPE)
    (k : List String) (data : List Int) (hk : char_integer64 ∈ k)
    (hrange : ∀ v ∈ data, -(2 : Int) ^ 63 ≤ v ∧ v < 2 ^ 63) :
    (∃ tr', coerceColumn env STRSXP true data.length j (.num t k data) tr
        = .ok (.chr STRSXP [] (data.map (int64AsChar env.NA_INTEGER64)), tr')) ∧
    (∀ v ∈ data,
      (v = env.NA_INTEGER64 → int64AsChar env.NA_INTEGER64 v = .NA_STRING) ∧
      (v ≠ env.NA_INTEGER64 →
        int64AsChar env.NA_INTEGER64 v = .mkChar (String.mk (canonicalDecimal v)) ∧
        parseInt64 (canonicalDecimal v) = some v)) := by
  constructor
  · have hin : INHERITS (.num t k data) char_integer64 = true := by
      simp [INHERITS, classOf, hk]
    unfold coerceColumn
    simp only [reduceCtorEq, false_and, if_false, hin, Bool.and_self, decide_True, if_true,
      range_map_int64At]
    exact ⟨_, rfl⟩
  · intro v hv
    obtain ⟨hlo, hhi⟩ := hrange v hv
    rw [int64AsChar_eq _ v hlo hhi]
    refine ⟨fun h => by simp [h], fun h => ⟨by simp [h], ?_⟩⟩
    exact parseInt64_canonicalDecimal v hlo hhi

theorem integer64_as_character_witness :
    (∃ tr', coerceColumn sampleEnv STRSXP true 2 0 int64Col emptyTrace
        = .ok (.chr STRSXP [] [.mkChar "10", .NA_STRING], tr')) ∧
      parseInt64 (canonicalDecimal 10) = some 10 := by
  have h := integer64_as_character sampleEnv 0 emptyTrace REALSXP ["integer64"]
    [10, -9223372036854775808] (by decide) (by decide)
  refine ⟨h.1, ?_⟩
  have h2 := ((h.2 10 (by decide)).2 (by decide)).2
  exact h2


/-! ## The fill loop: lemmas -/

theorem isVector_cases (x : SEXP) (h1 : isVectorAtomic x = false) (h2 : TYPEOF x ≠ VECSXP)
    (h3 : TYPEOF x ≠ EXPRSXP) : isVector x = false := by
  unfold isVector
  unfold isVectorAtomic at h1
  revert h1 h2 h3
  generalize TYPEOF x = t
  cases t <;> simp

theorem coerceColumn_ok (env : Env) (maxType : SEXPTYPE) (integer64 : Bool) (nrow j : Nat)
    (thisCol : SEXP) (tr : Trace) :
    ∃ tr', coerceColumn env maxType integer64 nrow j thisCol tr
        = .ok (sourceFor env maxType integer64 nrow thisCol, tr') ∧
      tr'.fills = tr.fills ∧ tr'.warnings = tr.warnings := by
  unfold sourceFor coerceColumn
  by_cases h1 : maxType = VECSXP ∧ TYPEOF thisCol ≠ VECSXP
  · simp only [h1, ne_eq, not_false_eq_true, and_self, if_true]
    by_cases h2 : (isVectorAtomic thisCol || decide (TYPEOF thisCol = LISTSXP)) = true
    · simp only [h2, if_true]
      exact ⟨_, rfl, rfl, rfl⟩
    · simp only [h2, if_false]
      by_cases h3 : TYPEOF thisCol = EXPRSXP
      · simp only [h3, if_true]
        exact ⟨_, rfl, rfl, rfl⟩
      · have ha : isVectorAtomic thisCol = false := by
          cases h : isVectorAtomic thisCol <;> simp_all
        have hv : isVector thisCol = false := isVector_cases thisCol ha h1.2 h3
        simp only [h3, if_false, hv, Bool.not_false, if_true]
        exact ⟨_, rfl, rfl, rfl⟩
  · simp only [h1, if_false]
    split
    · exact ⟨_, rfl, rfl, rfl⟩
    · split
      · exact ⟨_, rfl, rfl, rfl⟩
      · exact ⟨_, rfl, rfl, rfl⟩

theorem fillColumn_fills (env : Env) (ans : Matrix) (nrow ansloc j : Nat) (coerced : SEXP)
    (tr : Trace) :
    (fillColumn env ans nrow ansloc j coerced tr).fills = tr.fills ++ fillCalls ans nrow ansloc [coerced] := by
  unfold fillColumn fillCalls
  simp only
  split <;> rfl

theorem fillLoop_fills (env : Env) (ans : Matrix) (maxType : SEXPTYPE) (integer64 : Bool)
    (nrow : Nat) (cols : List SEXP) :
    ∀ (j ansloc : Nat) (tr : Trace),
      ∃ tr', fillLoop env ans maxType integer64 nrow j ansloc cols tr = .ok tr' ∧
        tr'.fills = tr.fills ++
          fillCalls ans nrow ansloc (cols.map (sourceFor env maxType integer64 nrow)) := by
  induction cols with
  | nil => intro j ansloc tr; exact ⟨tr, rfl, by simp [fillCalls]⟩
  | cons c rest ih =>
    intro j ansloc tr
    obtain ⟨tr1, h1, hf1, _⟩ := coerceColumn_ok env maxType integer64 nrow j c tr
    obtain ⟨tr2, h2, hf2⟩ := ih (j + 1) (ansloc + nrow)
      (fillColumn env ans nrow ansloc j (sourceFor env maxType integer64 nrow c) tr1)
    refine ⟨tr2, ?_, ?_⟩
    · simp only [fillLoop, h1, h2]
    · rw [hf2, fillColumn_fills, hf1]
      simp [fillCalls]

theorem fillCalls_source (ans : Matrix) (nrow : Nat) (srcs : List SEXP) :
    ∀ ansloc, (fillCalls ans nrow ansloc srcs).map (fun c => c.source) = srcs := by
  induction srcs with
  | nil => intro _; rfl
  | cons s rest ih => intro a; simp [fillCalls, ih]

theorem fillCalls_target (ans : Matrix) (nrow : Nat) (srcs : List SEXP) :
    ∀ ansloc, ∀ c ∈ fillCalls ans nrow ansloc srcs, c.target = ans := by
  induction srcs with
  | nil => intro _ c hc; simp [fillCalls] at hc
  | cons s rest ih =>
    intro a c hc
    simp only [fillCalls, List.mem_cons] at hc
    rcases hc with rfl | hc
    · rfl
    · exact ih _ c hc

theorem asmatrix_of_fillLoop (env : Env) (dt : DataTable) (rownames : SEXP) (tr : Trace)
    (hne : dt.nrow ≠ 0)
    (h : fillLoop env (allocated dt rownames).ans (fixup (scan dt.cols))
      (scan dt.cols).integer64 dt.nrow 0 0 dt.cols (allocated dt rownames).trace = .ok tr) :
    asmatrix env dt rownames = .ok
      { ans := { type := destinationType dt.cols, nrow := dt.nrow, ncol := dt.ncol,
                 dimnames := .gen VECSXP [] [rownames, dt.names], klass := [] }
        unprotected := tr.nprotect
        trace := tr } := by
  simp only [asmatrix, hne, if_false, h]
  simp only [allocated, allocate_ans, allocate_matClass, destinationType]
  split <;> simp_all

theorem fillColumn_warnings (env : Env) (ans : Matrix) (nrow ansloc j : Nat) (coerced : SEXP)
    (tr : Trace) :
    (fillColumn env ans nrow ansloc j coerced tr).warnings
      = tr.warnings ++ warningsFor env j (fillCalls ans nrow ansloc [coerced]) := by
  unfold fillColumn
  simp only [fillCalls, warningsFor, List.append_nil]
  split <;> simp_all

theorem fillLoop_trace (env : Env) (ans : Matrix) (maxType : SEXPTYPE) (integer64 : Bool)
    (nrow : Nat) (cols : List SEXP) :
    ∀ (j ansloc : Nat) (tr : Trace),
      ∃ tr', fillLoop env ans maxType integer64 nrow j ansloc cols tr = .ok tr' ∧
        tr'.fills = tr.fills ++
          fillCalls ans nrow ansloc (cols.map (sourceFor env maxType integer64 nrow)) ∧
        tr'.warnings = tr.warnings ++ warningsFor env j
          (fillCalls ans nrow ansloc (cols.map (sourceFor env maxType integer64 nrow))) := by
  induction cols with
  | nil => intro j ansloc tr; exact ⟨tr, rfl, by simp [fillCalls], by simp [fillCalls, warningsFor]⟩
  | cons c rest ih =>
    intro j ansloc tr
    obtain ⟨tr1, h1, hf1, hw1⟩ := coerceColumn_ok env maxType integer64 nrow j c tr
    obtain ⟨tr2, h2, hf2, hw2⟩ := ih (j + 1) (ansloc + nrow)
      (fillColumn env ans nrow ansloc j (sourceFor env maxType integer64 nrow c) tr1)
    refine ⟨tr2, ?_, ?_, ?_⟩
    · simp only [fillLoop, h1, h2]
    · rw [hf2, fillColumn_fills, hf1]
      simp [fillCalls]
    · rw [hw2, fillColumn_warnings, hw1]
      simp [fillCalls, warningsFor]

theorem warningsFor_mem (env : Env) (calls : List FillCall) :
    ∀ (j0 i : Nat) (call : FillCall) (msg : String),
      calls[i]? = some call → env.memrecycle call = some msg →
      (j0 + i + 1, msg) ∈ warningsFor env j0 calls := by
  induction calls with
  | nil => intro j0 i call msg h; simp at h
  | cons c rest ih =>
    intro j0 i call msg h hm
    cases i with
    | zero =>
      simp only [List.getElem?_cons_zero, Option.some.injEq] at h
      subst h
      simp [warningsFor, hm]
    | succ i =>
      simp only [List.getElem?_cons_succ] at h
      have := ih (j0 + 1) i call msg h hm
      simp only [warningsFor, List.mem_append]
      right
      have e : j0 + (i + 1) + 1 = j0 + 1 + i + 1 := by omega
      rw [e]; exact this

theorem fillCalls_length (ans : Matrix) (nrow : Nat) (srcs : List SEXP) :
    ∀ ansloc, (fillCalls ans nrow ansloc srcs).length = srcs.length := by
  induction srcs with
  | nil => intro _; rfl
  | cons s rest ih => intro a; simp [fillCalls, ih]

/-- C11: for a table with rows and any `memrecycle`, the call returns with
every column pre-coerced and filled, and each call of `memrecycle` that
answers with a message, for the column at 0-based position `j`, has produced
the warning that carries the number `j + 1` and that message. -/
theorem warning_per_report (env : Env) (dt : DataTable) (rownames : SEXP)
    (hrow : 0 < dt.nrow) :
    ∃ r, asmatrix env dt rownames = .ok r ∧
      r.trace.fills.length = dt.ncol ∧
      r.trace.fills.map (fun c => c.source)
        = dt.cols.map (sourceFor env (destinationType dt.cols) (scan dt.cols).integer64 dt.nrow) ∧
      r.trace.warnings = warningsFor env 0 r.trace.fills ∧
      (∀ j call msg, r.trace.fills[j]? = some call → env.memrecycle call = some msg →
        (j + 1, msg) ∈ r.trace.warnings) := by
  obtain ⟨tr, hloop, hfills, hwarn⟩ := fillLoop_trace env (allocated dt rownames).ans
    (fixup (scan dt.cols)) (scan dt.cols).integer64 dt.nrow dt.cols 0 0
    (allocated dt rownames).trace
  obtain ⟨_, hf0, hw0⟩ := allocate_trace (fixup (scan dt.cols)) (scan dt.cols).integer64
    dt.nrow dt.ncol dt rownames
  have hf0' : (allocated dt rownames).trace.fills = [] := hf0
  have hw0' : (allocated dt rownames).trace.warnings = [] := hw0
  rw [hf0', List.nil_append] at hfills
  rw [hw0', List.nil_append, ← hfills] at hwarn
  have hne : dt.nrow ≠ 0 := by omega
  refine ⟨_, asmatrix_of_fillLoop env dt rownames tr hne hloop, ?_, ?_, hwarn, ?_⟩
  · simp only [hfills, fillCalls_length, List.length_map, DataTable.ncol]
  · simp only [hfills, fillCalls_source, destinationType]
  · intro j call msg hj hm
    have := warningsFor_mem env tr.fills 0 j call msg hj hm
    simp only [Nat.zero_add] at this
    simp only [hwarn]
    exact this

theorem warning_per_report_witness :
    0 < wideBoolTable.nrow ∧
      ∃ r, asmatrix lossyEnv wideBoolTable .R_NilValue = .ok r ∧
        r.trace.fills.length = 2 ∧ (2, "precision lost") ∈ r.trace.warnings := by
  obtain ⟨r, h, hl, _, hw, _⟩ := warning_per_report lossyEnv wideBoolTable .R_NilValue
    (by decide)
  refine ⟨by decide, r, h, hl, ?_⟩
  have e : asmatrix lossyEnv wideBoolTable .R_NilValue = .ok
      { ans := { type := REALSXP, nrow := 2, ncol := 2,
                 dimnames := .gen VECSXP [] [.R_NilValue, .R_NilValue], klass := [] }
        unprotected := 3
        trace := (match fillLoop lossyEnv (allocated wideBoolTable .R_NilValue).ans REALSXP true
                    2 0 0 wideBoolTable.cols (allocated wideBoolTable .R_NilValue).trace with
                  | .ok tr => tr
                  | .error _ => emptyTrace) } := rfl
  rw [e] at h
  cases h
  simp [fillLoop, coerceColumn, fillColumn, wideBoolTable, lossyEnv, allocated, allocate,
    allocMatrix, int64Col, boolCol, INHERITS, classOf, char_integer64, TYPEOF]

theorem coerceColumn_counts (env : Env) (maxType : SEXPTYPE) (integer64 : Bool) (nrow j : Nat)
    (thisCol : SEXP) (tr : Trace) (p : SEXP × Trace)
    (h : coerceColumn env maxType integer64 nrow j thisCol tr = .ok p) :
    p.2.nprotect + tr.protects ≤ p.2.protects + tr.nprotect := by
  unfold coerceColumn at h
  split at h
  · split at h
    · cases h; simp only; omega
    · split at h
      · cases h; simp only; omega
      · split at h
        · cases h; simp only; omega
        · cases h
  · split at h
    · cases h; simp only; omega
    · split at h
      · cases h; simp only; omega
      · cases h; simp only; omega

theorem fillColumn_counts (env : Env) (ans : Matrix) (nrow ansloc j : Nat) (coerced : SEXP)
    (tr : Trace) :
    (fillColumn env ans nrow ansloc j coerced tr).nprotect = tr.nprotect ∧
    (fillColumn env ans nrow ansloc j coerced tr).protects = tr.protects := by
  unfold fillColumn
  simp only
  split <;> exact ⟨rfl, rfl⟩

theorem fillLoop_counts (env : Env) (ans : Matrix) (maxType : SEXPTYPE) (integer64 : Bool)
    (nrow : Nat) (cols : List SEXP) :
    ∀ (j ansloc : Nat) (tr tr' : Trace),
      fillLoop env ans maxType integer64 nrow j ansloc cols tr = .ok tr' →
      tr'.nprotect + tr.protects ≤ tr'.protects + tr.nprotect := by
  induction cols with
  | nil =>
    intro j ansloc tr tr' h
    simp only [fillLoop, Except.ok.injEq] at h
    subst h; omega
  | cons c rest ih =>
    intro j ansloc tr tr' h
    simp only [fillLoop] at h
    split at h
    · cases h
    · rename_i coerced tr1 hc
      have h1 := coerceColumn_counts env maxType integer64 nrow j c tr _ hc
      have h2 := ih _ _ _ _ h
      obtain ⟨e1, e2⟩ := fillColumn_counts env ans nrow ansloc j coerced tr1
      simp only at h1
      rw [e1, e2] at h2
      omega

theorem asmatrix_of_zero_rows (env : Env) (dt : DataTable) (rownames : SEXP)
    (h0 : dt.nrow = 0) :
    asmatrix env dt rownames = .ok
      { ans := (allocated dt rownames).ans
        unprotected := (allocated dt rownames).trace.nprotect
        trace := (allocated dt rownames).trace } := by
  simp only [asmatrix, h0, if_true]

theorem asmatrix_returns (env : Env) (dt : DataTable) (rownames : SEXP) :
    ∃ r, asmatrix env dt rownames = .ok r := by
  by_cases h0 : dt.nrow = 0
  · exact ⟨_, asmatrix_of_zero_rows env dt rownames h0⟩
  · obtain ⟨tr, hloop, _⟩ := fillLoop_fills env (allocated dt rownames).ans
      (fixup (scan dt.cols)) (scan dt.cols).integer64 dt.nrow dt.cols 0 0
      (allocated dt rownames).trace
    exact ⟨_, asmatrix_of_fillLoop env dt rownames tr h0 hloop⟩

theorem allocate_counts (maxType : SEXPTYPE) (integer64 : Bool) (nrow ncol : Nat)
    (dt : DataTable) (rownames : SEXP) :
    (allocate maxType integer64 nrow ncol dt rownames).trace.nprotect + 1
      = (allocate maxType integer64 nrow ncol dt rownames).trace.protects := by
  unfold allocate
  split <;> rfl

theorem asmatrix_unprotect_lt_protects (env : Env) (dt : DataTable) (rownames : SEXP) :
    ∃ r, asmatrix env dt rownames = .ok r ∧ r.unprotected + 1 ≤ r.trace.protects := by
  have ha := allocate_counts (fixup (scan dt.cols)) (scan dt.cols).integer64
    dt.nrow dt.ncol dt rownames
  by_cases h0 : dt.nrow = 0
  · refine ⟨_, asmatrix_of_zero_rows env dt rownames h0, ?_⟩
    simp only [allocated]
    omega
  · obtain ⟨tr, hloop, _⟩ := fillLoop_fills env (allocated dt rownames).ans
      (fixup (scan dt.cols)) (scan dt.cols).integer64 dt.nrow dt.cols 0 0
      (allocated dt rownames).trace
    have hc := fillLoop_counts env _ _ _ _ _ _ _ _ _ hloop
    refine ⟨_, asmatrix_of_fillLoop env dt rownames tr h0 hloop, ?_⟩
    simp only [allocated] at hc
    simp only
    omega

/-- C12 (the code at the failing inputs): for a table of one integer column
the call performs three `PROTECT` calls (the matrix, the dimnames, the saved
class) and ends with `UNPROTECT(2)`; for a table of a complex and a character
column it performs four (the coerced complex column as well) and still ends
with `UNPROTECT(2)`. -/
theorem unprotect_count_below_protect_calls :
    (∃ r, asmatrix sampleEnv intTable .R_NilValue = .ok r ∧
      r.trace.protects = 3 ∧ r.unprotected = 2) ∧
    (∃ r, asmatrix sampleEnv cplxStrTable .R_NilValue = .ok r ∧
      r.trace.protects = 4 ∧ r.unprotected = 2) :=
  ⟨⟨_, rfl, rfl, rfl⟩, ⟨_, rfl, rfl, rfl⟩⟩

/-- C13: whatever the column, it is a list, an atomic vector, a pairlist, an
expression vector or not a vector at all, so the branch of line 98 is never
taken: the coercion step of every column succeeds and the call returns. -/
theorem internal_error_unreachable (env : Env) (dt : DataTable) (rownames : SEXP) :
    (∀ thisCol : SEXP, TYPEOF thisCol = VECSXP ∨ isVectorAtomic thisCol = true ∨
      TYPEOF thisCol = LISTSXP ∨ TYPEOF thisCol = EXPRSXP ∨ isVector thisCol = false) ∧
    (∀ maxType integer64 nrow j thisCol tr,
      ∃ p, coerceColumn env maxType integer64 nrow j thisCol tr = .ok p) ∧
    (∃ r, asmatrix env dt rownames = .ok r) := by
  refine ⟨?_, ?_, asmatrix_returns env dt rownames⟩
  · intro thisCol
    unfold isVectorAtomic isVector
    generalize TYPEOF thisCol = t
    cases t <;> simp
  · intro maxType integer64 nrow j thisCol tr
    obtain ⟨tr', h, _⟩ := coerceColumn_ok env maxType integer64 nrow j thisCol tr
    exact ⟨_, h⟩

theorem formatLli_length (v : Int) (hlo : -(2 : Int) ^ 63 ≤ v) (hhi : v < 2 ^ 63) :
    (formatLli v).length ≤ 20 := by
  rw [formatLli_eq_canonicalDecimal]
  exact canonicalDecimal_length v hlo hhi

/-- C14: the `%lli` text of a 64-bit signed integer has at most 20 characters,
so with its terminator it fits in the buffer of `INTEGER64_ASCHAR_LEN` bytes
and `snprintf` leaves the whole text in the buffer. -/
theorem integer64_text_fits (v : Int) (hlo : -(2 : Int) ^ 63 ≤ v) (hhi : v < 2 ^ 63) :
    (formatLli v).length ≤ 20 ∧
    (formatLli v).length + 1 ≤ INTEGER64_ASCHAR_LEN ∧
    snprintf INTEGER64_ASCHAR_LEN (formatLli v) = formatLli v := by
  have h := formatLli_length v hlo hhi
  refine ⟨h, ?_, ?_⟩
  · unfold INTEGER64_ASCHAR_LEN; omega
  · rw [snprintf_formatLli v hlo hhi, formatLli_eq_canonicalDecimal]

theorem integer64_text_fits_witness :
    (formatLli (-9223372036854775808)).length = 20 ∧
    snprintf INTEGER64_ASCHAR_LEN (formatLli (-9223372036854775808))
      = formatLli (-9223372036854775808) :=
  ⟨by decide, (integer64_text_fits (-9223372036854775808) (by decide) (by decide)).2.2⟩

/-! ## The sources for a list destination: lemmas -/

theorem sourceFor_list_of_vec (env : Env) (integer64 : Bool) (nrow : Nat) (c : SEXP)
    (h : TYPEOF c = VECSXP) : sourceFor env VECSXP integer64 nrow c = c := by
  simp [sourceFor, coerceColumn, h]

theorem sourceFor_list_of_atomic (env : Env) (integer64 : Bool) (nrow : Nat) (c : SEXP)
    (hv : TYPEOF c ≠ VECSXP) (h : isVectorAtomic c = true ∨ TYPEOF c = LISTSXP) :
    sourceFor env VECSXP integer64 nrow c = env.coerceVector c VECSXP := by
  have h' : (isVectorAtomic c || decide (TYPEOF c = LISTSXP)) = true := by
    rcases h with h | h <;> simp [h]
  simp [sourceFor, coerceColumn, hv, h']

theorem sourceFor_list_of_expr (env : Env) (integer64 : Bool) (nrow : Nat) (c : SEXP)
    (h : TYPEOF c = EXPRSXP) :
    sourceFor env VECSXP integer64 nrow c = .gen VECSXP []
      ((List.range nrow).map fun i => env.coerceVector (VECTOR_ELT c i) EXPRSXP) := by
  have ha : isVectorAtomic c = false := by simp [isVectorAtomic, h]
  simp [sourceFor, coerceColumn, h, ha]

theorem sourceFor_list_of_nonvector (env : Env) (integer64 : Bool) (nrow : Nat) (c : SEXP)
    (hv : isVector c = false) (hl : TYPEOF c ≠ LISTSXP) :
    sourceFor env VECSXP integer64 nrow c
      = .gen VECSXP [] ((List.range nrow).map fun _ => c) := by
  have h3 : isVectorAtomic c = false ∧ TYPEOF c ≠ VECSXP ∧ TYPEOF c ≠ EXPRSXP := by
    unfold isVector at hv
    unfold isVectorAtomic
    revert hv
    generalize TYPEOF c = t
    cases t <;> simp
  obtain ⟨ha, hvec, he⟩ := h3
  simp [sourceFor, coerceColumn, hvec, ha, hl, he, hv]

theorem coerceToList_shape (x : SEXP) :
    TYPEOF (coerceToList x) = VECSXP ∧ length (coerceToList x) = length x := by
  cases x <;> simp [coerceToList, TYPEOF, length]

theorem range_map_VECTOR_ELT (t : SEXPTYPE) (k : List String) (d : List SEXP) (f : SEXP → SEXP) :
    (List.range d.length).map (fun i => f (VECTOR_ELT (.gen t k d) i)) = d.map f := by
  apply List.ext_getElem
  · simp
  · intro i h1 h2
    simp only [List.length_map, List.length_range] at h1
    simp [VECTOR_ELT, List.getD_eq_getElem?_getD, List.getElem?_eq_getElem h1]

theorem range_map_const (n : Nat) (c : SEXP) :
    (List.range n).map (fun _ => c) = List.replicate n c := by
  apply List.ext_getElem
  · simp
  · intro i h1 h2
    simp

theorem sourceFor_list_shape (env : Env) (integer64 : Bool) (nrow : Nat) (c : SEXP)
    (hto : ∀ x, isVectorAtomic x = true ∨ TYPEOF x = LISTSXP →
      env.coerceVector x VECSXP = coerceToList x)
    (hlen : length c = nrow) :
    TYPEOF (sourceFor env VECSXP integer64 nrow c) = VECSXP ∧
      length (sourceFor env VECSXP integer64 nrow c) = nrow := by
  by_cases hv : TYPEOF c = VECSXP
  · rw [sourceFor_list_of_vec env integer64 nrow c hv]; exact ⟨hv, hlen⟩
  · by_cases ha : isVectorAtomic c = true ∨ TYPEOF c = LISTSXP
    · rw [sourceFor_list_of_atomic env integer64 nrow c hv ha, hto c ha]
      obtain ⟨h1, h2⟩ := coerceToList_shape c
      exact ⟨h1, by rw [h2, hlen]⟩
    · by_cases he : TYPEOF c = EXPRSXP
      · rw [sourceFor_list_of_expr env integer64 nrow c he]
        simp [TYPEOF, length]
      · have hat : isVectorAtomic c = false := by
          cases h : isVectorAtomic c <;> simp_all
        have hnv : isVector c = false := isVector_cases c hat hv he
        rw [sourceFor_list_of_nonvector env integer64 nrow c hnv (fun h => ha (Or.inr h))]
        simp [TYPEOF, length]

/-- C16: when the destination type is `VECSXP` and every column has `nrow > 0`
elements, `memrecycle` receives for every column a list of `nrow` cells: a
list column itself; for an atomic column the list that boxes element `i` in
cell `i`; for an expression column the list whose cell `i` is the one-element
expression of element `i`; for a value that is neither a vector nor a
pairlist the list that holds it in each cell.  What `coerceVector` returns for
a conversion to list and to expression is taken from the spec. -/
theorem list_destination_sources (env : Env) (dt : DataTable) (rownames : SEXP)
    (hto : ∀ x, isVectorAtomic x = true ∨ TYPEOF x = LISTSXP →
      env.coerceVector x VECSXP = coerceToList x)
    (hex : ∀ e, env.coerceVector e EXPRSXP = coerceToExpression e)
    (hrow : 0 < dt.nrow) (hlen : ∀ c ∈ dt.cols, length c = dt.nrow)
    (hdest : destinationType dt.cols = VECSXP) :
    ∃ r, asmatrix env dt rownames = .ok r ∧
      r.trace.fills.map (fun call => call.source)
        = dt.cols.map (sourceFor env VECSXP (scan dt.cols).integer64 dt.nrow) ∧
      ∀ c ∈ dt.cols,
        (TYPEOF (sourceFor env VECSXP (scan dt.cols).integer64 dt.nrow c) = VECSXP ∧
          length (sourceFor env VECSXP (scan dt.cols).integer64 dt.nrow c) = dt.nrow) ∧
        (TYPEOF c = VECSXP →
          sourceFor env VECSXP (scan dt.cols).integer64 dt.nrow c = c) ∧
        (isVectorAtomic c = true →
          (∀ t k d, c = .num t k d →
            sourceFor env VECSXP (scan dt.cols).integer64 dt.nrow c
              = .gen VECSXP [] (d.map fun v => .num t [] [v])) ∧
          (∀ t k d, c = .chr t k d →
            sourceFor env VECSXP (scan dt.cols).integer64 dt.nrow c
              = .gen VECSXP [] (d.map fun s => .chr t [] [s]))) ∧
        (∀ k d, c = .gen EXPRSXP k d →
          sourceFor env VECSXP (scan dt.cols).integer64 dt.nrow c
            = .gen VECSXP [] (d.map fun e => .gen EXPRSXP [] [e])) ∧
        (isVector c = false → TYPEOF c ≠ LISTSXP →
          sourceFor env VECSXP (scan dt.cols).integer64 dt.nrow c
            = .gen VECSXP [] (List.replicate dt.nrow c)) := by
  obtain ⟨tr, hloop, hfills⟩ := fillLoop_fills env (allocated dt rownames).ans
    (fixup (scan dt.cols)) (scan dt.cols).integer64 dt.nrow dt.cols 0 0
    (allocated dt rownames).trace
  have hempty : (allocated dt rownames).trace.fills = [] :=
    (allocate_trace _ _ _ _ dt rownames).2.1
  rw [hempty, List.nil_append] at hfills
  have hne : dt.nrow ≠ 0 := by omega
  have hd : fixup (scan dt.cols) = VECSXP := hdest
  refine ⟨_, asmatrix_of_fillLoop env dt rownames tr hne hloop, ?_, ?_⟩
  · simp only [hfills, fillCalls_source, hd]
  · intro c hc
    refine ⟨sourceFor_list_shape env _ _ c hto (hlen c hc), ?_, ?_, ?_, ?_⟩
    · exact sourceFor_list_of_vec env _ _ c
    · intro hat
      have hv : TYPEOF c ≠ VECSXP := by
        intro hv
        simp [isVectorAtomic, hv] at hat
      have hs := sourceFor_list_of_atomic env (scan dt.cols).integer64 dt.nrow c hv (Or.inl hat)
      rw [hs, hto c (Or.inl hat)]
      exact ⟨fun t k d e => by subst e; rfl, fun t k d e => by subst e; rfl⟩
    · intro k d e
      have hl := hlen c hc
      subst e
      rw [sourceFor_list_of_expr env _ _ (.gen EXPRSXP k d) rfl]
      simp only [length] at hl
      rw [← hl, range_map_VECTOR_ELT EXPRSXP k d (fun e => env.coerceVector e EXPRSXP)]
      simp only [hex, coerceToExpression]
    · intro hv hl
      rw [sourceFor_list_of_nonvector env _ _ c hv hl, range_map_const]

theorem list_destination_sources_witness :
    0 < listIntTable.nrow ∧ destinationType listIntTable.cols = VECSXP ∧
      ∃ r, asmatrix boxingEnv listIntTable .R_NilValue = .ok r ∧
        r.trace.fills.map (fun call => call.source)
          = [listCol, .gen VECSXP [] [.num INTSXP [] [1], .num INTSXP [] [2]]] := by
  obtain ⟨r, h, hs, _⟩ := list_destination_sources boxingEnv listIntTable .R_NilValue
    (fun x _ => rfl) (fun e => rfl) (by decide)
    (by intro c hc; simp [listIntTable] at hc; rcases hc with rfl | rfl <;> rfl) (by decide)
  exact ⟨by decide, by decide, r, h, hs⟩

/-! ## Monotonicity and the wide-integer flag: lemmas -/

theorem rank_destinationType (cols : List SEXP) :
    TYPEORDER (destinationType cols)
      = destRank (maxPlainRank cols) (cols.any fun c => INHERITS c char_integer64) := by
  obtain ⟨hr, hc⟩ := scan_rank cols
  have e2 : TYPEORDER REALSXP = 2 := rfl
  have e4 : TYPEORDER STRSXP = 4 := rfl
  have e5 : TYPEORDER VECSXP = 5 := rfl
  by_cases hv : (scan cols).maxType = VECSXP
  · have hm := (scan_vec_iff cols).mp hv
    rw [destinationType, fixup_of_vec _ hv, hm]
    unfold destRank
    split
    · rw [if_neg (by omega), if_neg (by omega)]
    · rfl
  · rw [← scan_flag cols hv, ← hr]
    unfold destinationType fixup destRank
    split
    · split
      · rfl
      · split <;> rfl
    · rfl

theorem destRank_mono (r r' : Nat) (w w' : Bool) (hr : r ≤ r') (hw : w = true → w' = true) :
    destRank r w ≤ destRank r' w' := by
  have e2 : TYPEORDER REALSXP = 2 := rfl
  have e4 : TYPEORDER STRSXP = 4 := rfl
  cases w <;> cases w'
  · simpa [destRank] using hr
  · simp only [destRank, if_true, Bool.false_eq_true, if_false]
    split
    · omega
    · split <;> omega
  · simp at hw
  · simp only [destRank, if_true]
    split <;> split <;> (try split) <;> (try split) <;> omega

theorem maxPlainRank_insert (l₁ l₂ : List SEXP) (c : SEXP) :
    maxPlainRank (l₁ ++ l₂) ≤ maxPlainRank (l₁ ++ c :: l₂) := by
  apply maxPlainRank_le_of_forall
  intro x hx
  apply plainRank_le_maxPlainRank
  rcases List.mem_append.mp hx with h | h
  · exact List.mem_append.mpr (Or.inl h)
  · exact List.mem_append.mpr (Or.inr (List.mem_cons_of_mem _ h))

theorem any_inherits_insert (l₁ l₂ : List SEXP) (c : SEXP)
    (h : ((l₁ ++ l₂).any fun x => INHERITS x char_integer64) = true) :
    ((l₁ ++ c :: l₂).any fun x => INHERITS x char_integer64) = true := by
  rw [List.any_eq_true] at h ⊢
  obtain ⟨x, hx, hp⟩ := h
  refine ⟨x, ?_, hp⟩
  rcases List.mem_append.mp hx with h | h
  · exact List.mem_append.mpr (Or.inl h)
  · exact List.mem_append.mpr (Or.inr (List.mem_cons_of_mem _ h))

/-- C15: inserting one more column, of any kind and at any position, never
lowers the rank of the destination type. -/
theorem destinationType_monotone (l₁ l₂ : List SEXP) (c : SEXP) :
    TYPEORDER (destinationType (l₁ ++ l₂)) ≤ TYPEORDER (destinationType (l₁ ++ c :: l₂)) := by
  rw [rank_destinationType, rank_destinationType]
  exact destRank_mono _ _ _ _ (maxPlainRank_insert l₁ l₂ c) (any_inherits_insert l₁ l₂ c)

theorem sourceFor_real (env : Env) (integer64 : Bool) (nrow : Nat) (c : SEXP) :
    sourceFor env REALSXP integer64 nrow c = c := by
  simp [sourceFor, coerceColumn]

theorem sourceFor_str_of_wide (env : Env) (nrow : Nat) (c : SEXP)
    (h : INHERITS c char_integer64 = true) :
    sourceFor env STRSXP true nrow c = .chr STRSXP []
      ((List.range nrow).map fun i => int64AsChar env.NA_INTEGER64 (int64At c i)) := by
  simp [sourceFor, coerceColumn, h]

theorem low_rank_types (t : SEXPTYPE) (h : TYPEORDER t < TYPEORDER REALSXP) :
    t = RAWSXP ∨ t = LGLSXP ∨ t = INTSXP := by
  cases t <;> simp_all [TYPEORDER]

theorem marked_rank_lt (cols : List SEXP) (hflag : (scan cols).integer64 = true)
    (hdest : destinationType cols = REALSXP) : maxPlainRank cols < TYPEORDER REALSXP := by
  obtain ⟨hr, hc⟩ := scan_rank cols
  obtain ⟨_, hhigh⟩ := fixup_flagged (scan cols) hc hflag
  have e2 : TYPEORDER REALSXP = 2 := rfl
  have e4 : TYPEORDER STRSXP = 4 := rfl
  have e5 : TYPEORDER VECSXP = 5 := rfl
  have hle := maxPlainRank_le cols
  by_contra hge
  by_cases h4 : maxPlainRank cols ≤ 4
  · have := hhigh (by omega) (by omega)
    rw [destinationType] at hdest
    rw [this] at hdest
    cases hdest
  · have hv := (scan_vec_iff cols).mpr (by omega)
    rw [destinationType, fixup_of_vec _ hv] at hdest
    cases hdest

theorem fills_of_asmatrix (env : Env) (dt : DataTable) (rownames : SEXP) :
    ∃ r, asmatrix env dt rownames = .ok r ∧
      (∀ call ∈ r.trace.fills, call.target = (allocated dt rownames).ans) ∧
      (∀ call ∈ r.trace.fills, ∃ c ∈ dt.cols,
        call.source = sourceFor env (destinationType dt.cols) (scan dt.cols).integer64 dt.nrow c) ∧
      (dt.nrow ≠ 0 → r.trace.fills.map (fun call => call.source)
        = dt.cols.map (sourceFor env (destinationType dt.cols) (scan dt.cols).integer64 dt.nrow)) := by
  by_cases h0 : dt.nrow = 0
  · have hempty : (allocated dt rownames).trace.fills = [] :=
      (allocate_trace _ _ _ _ dt rownames).2.1
    refine ⟨_, asmatrix_of_zero_rows env dt rownames h0, ?_, ?_, ?_⟩
    · intro call hc; simp [hempty] at hc
    · intro call hc; simp [hempty] at hc
    · intro h; exact absurd h0 h
  · obtain ⟨tr, hloop, hfills⟩ := fillLoop_fills env (allocated dt rownames).ans
      (fixup (scan dt.cols)) (scan dt.cols).integer64 dt.nrow dt.cols 0 0
      (allocated dt rownames).trace
    have hempty : (allocated dt rownames).trace.fills = [] :=
      (allocate_trace _ _ _ _ dt rownames).2.1
    rw [hempty, List.nil_append] at hfills
    have hsrc : tr.fills.map (fun call => call.source)
        = dt.cols.map (sourceFor env (destinationType dt.cols) (scan dt.cols).integer64 dt.nrow) := by
      simp only [hfills, fillCalls_source, destinationType]
    refine ⟨_, asmatrix_of_fillLoop env dt rownames tr h0 hloop, ?_, ?_, fun _ => hsrc⟩
    · intro call hc
      simp only [hfills] at hc
      exact fillCalls_target _ _ _ _ call hc
    · intro call hc
      have : call.source ∈ tr.fills.map (fun call => call.source) :=
        List.mem_map.mpr ⟨call, hc, rfl⟩
      rw [hsrc] at this
      obtain ⟨c, hcm, he⟩ := List.mem_map.mp this
      exact ⟨c, hcm, he.symm⟩

/-- C17: when the scan has set the flag and the destination type is `REALSXP`
(the case in which the matrix is marked `integer64`), every column is
wide-integer or of type raw, logical or integer, below the rank of `REALSXP`;
every call of `memrecycle` has the marked matrix as target and such a column,
unchanged, as source. -/
theorem marked_matrix_columns (env : Env) (dt : DataTable) (rownames : SEXP)
    (hflag : (scan dt.cols).integer64 = true) (hdest : destinationType dt.cols = REALSXP) :
    (∀ c ∈ dt.cols, isWideInteger c = true ∨
      (TYPEORDER (TYPEOF c) < TYPEORDER REALSXP ∧
        (TYPEOF c = RAWSXP ∨ TYPEOF c = LGLSXP ∨ TYPEOF c = INTSXP))) ∧
    (∃ r, asmatrix env dt rownames = .ok r ∧
      ∀ call ∈ r.trace.fills,
        char_integer64 ∈ call.target.klass ∧ call.source ∈ dt.cols ∧
        (isWideInteger call.source = true ∨
          TYPEORDER (TYPEOF call.source) < TYPEORDER REALSXP)) := by
  have hlt := marked_rank_lt dt.cols hflag hdest
  have hcols : ∀ c ∈ dt.cols, isWideInteger c = true ∨
      (TYPEORDER (TYPEOF c) < TYPEORDER REALSXP ∧
        (TYPEOF c = RAWSXP ∨ TYPEOF c = LGLSXP ∨ TYPEOF c = INTSXP)) := by
    intro c hc
    cases hw : isWideInteger c with
    | true => exact Or.inl rfl
    | false =>
      right
      have hle := plainRank_le_maxPlainRank dt.cols c hc
      have hlow : TYPEORDER (TYPEOF c) < TYPEORDER REALSXP := by
        unfold isWideInteger at hw
        unfold plainRank at hle
        rw [hw] at hle
        simp only [Bool.false_eq_true, if_false] at hle
        have e2 : TYPEORDER REALSXP = 2 := rfl
        have e5 : TYPEORDER VECSXP = 5 := rfl
        rw [e5] at hle
        omega
      exact ⟨hlow, low_rank_types _ hlow⟩
  refine ⟨hcols, ?_⟩
  obtain ⟨r, hr, htarget, hsource, _⟩ := fills_of_asmatrix env dt rownames
  refine ⟨r, hr, ?_⟩
  intro call hcall
  obtain ⟨c, hc, he⟩ := hsource call hcall
  rw [hdest, sourceFor_real] at he
  have hk : char_integer64 ∈ call.target.klass := by
    rw [htarget call hcall]
    simp only [allocated, allocate_ans]
    have : fixup (scan dt.cols) = REALSXP := hdest
    simp [hflag, this]
  refine ⟨hk, he ▸ hc, ?_⟩
  rw [he]
  rcases hcols c hc with h | h
  · exact Or.inl h
  · exact Or.inr h.1

theorem marked_matrix_columns_witness :
    (scan wideBoolTable.cols).integer64 = true ∧
      destinationType wideBoolTable.cols = REALSXP ∧
      ∀ c ∈ wideBoolTable.cols, isWideInteger c = true ∨
        (TYPEORDER (TYPEOF c) < TYPEORDER REALSXP ∧
          (TYPEOF c = RAWSXP ∨ TYPEOF c = LGLSXP ∨ TYPEOF c = INTSXP)) :=
  ⟨by decide, by decide,
    (marked_matrix_columns sampleEnv wideBoolTable .R_NilValue (by decide) (by decide)).1⟩

/-- C18: when the destination type is not `VECSXP`, the flag of the scan is
set exactly when some column is wide-integer; so when the destination type is
`STRSXP`, every wide-integer column is handed to `memrecycle` as the character
vector of the cell-by-cell conversion of its 64-bit values. -/
theorem flag_iff_wide_column (env : Env) (dt : DataTable) (rownames : SEXP)
    (h : destinationType dt.cols ≠ VECSXP) :
    ((scan dt.cols).integer64 = true ↔ ∃ c ∈ dt.cols, isWideInteger c = true) ∧
    (destinationType dt.cols = STRSXP →
      (∀ c ∈ dt.cols, isWideInteger c = true →
        sourceFor env (destinationType dt.cols) (scan dt.cols).integer64 dt.nrow c
          = .chr STRSXP []
              ((List.range dt.nrow).map fun i => int64AsChar env.NA_INTEGER64 (int64At c i))) ∧
      ∃ r, asmatrix env dt rownames = .ok r ∧
        (dt.nrow ≠ 0 → r.trace.fills.map (fun call => call.source)
          = dt.cols.map
              (sourceFor env (destinationType dt.cols) (scan dt.cols).integer64 dt.nrow))) := by
  have hv : (scan dt.cols).maxType ≠ VECSXP := by
    intro hv
    exact h (fixup_of_vec _ hv)
  have hiff : (scan dt.cols).integer64 = true ↔ ∃ c ∈ dt.cols, isWideInteger c = true := by
    rw [scan_flag dt.cols hv, List.any_eq_true]
    simp only [isWideInteger]
  refine ⟨hiff, ?_⟩
  intro hs
  refine ⟨?_, ?_⟩
  · intro c hc hw
    have hflag : (scan dt.cols).integer64 = true := hiff.mpr ⟨c, hc, hw⟩
    rw [hs, hflag]
    exact sourceFor_str_of_wide env dt.nrow c hw
  · obtain ⟨r, hr, _, _, hsrc⟩ := fills_of_asmatrix env dt rownames
    exact ⟨r, hr, hsrc⟩

theorem flag_iff_wide_column_witness :
    destinationType wideStrTable.cols ≠ VECSXP ∧
      (scan wideStrTable.cols).integer64 = true ∧
      sourceFor sampleEnv (destinationType wideStrTable.cols)
          (scan wideStrTable.cols).integer64 wideStrTable.nrow int64Col
        = .chr STRSXP [] [.mkChar "10", .NA_STRING] := by
  have h := flag_iff_wide_column sampleEnv wideStrTable .R_NilValue (by decide)
  exact ⟨by decide, h.1.mpr ⟨int64Col, by simp [wideStrTable], by decide⟩,
    (h.2 (by decide)).1 int64Col (by simp [wideStrTable]) (by decide)⟩


end AsMatrix
